import Mathlib

/-!
Verification development for the Foogood food-inventory application.

The JavaScript sources are shallowly embedded:
* JS strings are `List Char` (`Str`); `String.prototype.toLowerCase` and
  `String.prototype.trim` are modelled character-wise for the ASCII range.
* possibly-`undefined` JS values are `Option`; JS truthiness on strings
  treats the empty string as falsy.
* machine timestamps (`Date.now()`) are threaded as an explicit `now : Nat`;
  the random id suffix is not modelled (no property depends on it).
* fallible code returns `Except`.
-/

abbrev Str := List Char

/-- Whitespace test used by the models of `trim` and of JSON whitespace
(ASCII range: TAB, LF, VT, FF, CR, SPACE). -/
def isWsChar (c : Char) : Bool :=
  decide (c.toNat = 32 ∨ c.toNat = 9 ∨ c.toNat = 10 ∨ c.toNat = 11 ∨
          c.toNat = 12 ∨ c.toNat = 13)

/-- ASCII-range model of the per-character action of
`String.prototype.toLowerCase`. -/
def jsToLowerChar (c : Char) : Char :=
  if 65 ≤ c.toNat ∧ c.toNat ≤ 90 then Char.ofNat (c.toNat + 32) else c

/-- Model of `s.toLowerCase()`. -/
def lowerStr (s : Str) : Str := s.map jsToLowerChar

/-- Leading-whitespace removal. -/
def ltrimStr (s : Str) : Str := s.dropWhile isWsChar

/-- Model of `s.trim()`: drop leading and trailing whitespace. -/
def trimStr (s : Str) : Str :=
  ((ltrimStr s).reverse.dropWhile isWsChar).reverse

/-- The merge identity key of a shopping-list name:
`name.toLowerCase().trim()` (src/services/shoppingListService.js:61). -/
def nameKey (s : Str) : Str := trimStr (lowerStr s)

lemma toNat_ofNat_of_le (n : Nat) (h1 : 97 ≤ n) (h2 : n ≤ 122) :
    (Char.ofNat n).toNat = n := by
  unfold Char.ofNat
  split
  · rfl
  · next h => exact absurd (Or.inl (by omega)) h

lemma isWsChar_jsToLowerChar (c : Char) :
    isWsChar (jsToLowerChar c) = isWsChar c := by
  unfold jsToLowerChar
  split
  · next h =>
    have hv : (Char.ofNat (c.toNat + 32)).toNat = c.toNat + 32 :=
      toNat_ofNat_of_le _ (by omega) (by omega)
    simp only [isWsChar, hv]
    exact decide_eq_decide.mpr (by omega)
  · rfl

lemma dropWhile_idem {α : Type} (p : α → Bool) (l : List α) :
    (l.dropWhile p).dropWhile p = l.dropWhile p := by
  induction l with
  | nil => rfl
  | cons a l ih =>
    by_cases h : p a
    · simpa [List.dropWhile_cons, h] using ih
    · simp [List.dropWhile_cons, h]

lemma dropWhile_map_ws (l : List Char) :
    (l.map jsToLowerChar).dropWhile isWsChar =
      (l.dropWhile isWsChar).map jsToLowerChar := by
  have hp : (isWsChar ∘ jsToLowerChar) = isWsChar :=
    funext isWsChar_jsToLowerChar
  rw [List.dropWhile_map, hp]

lemma lowerStr_trimStr (s : Str) :
    lowerStr (trimStr s) = trimStr (lowerStr s) := by
  unfold trimStr ltrimStr lowerStr
  rw [dropWhile_map_ws, ← List.map_reverse, dropWhile_map_ws, List.map_reverse]

lemma dropWhile_prefix_of_dropWhile_eq {p : Char → Bool} {z w : Str}
    (hz : z.dropWhile p = z) (hw : w <+: z) : w.dropWhile p = w := by
  rw [List.dropWhile_eq_self_iff] at hz ⊢
  intro hl
  obtain ⟨t, ht⟩ := hw
  have hzl : 0 < z.length := by
    subst ht; simp; omega
  have := hz hzl
  have hhead : w.get ⟨0, hl⟩ = z.get ⟨0, hzl⟩ := by
    subst ht
    cases w with
    | nil => simp at hl
    | cons a l => rfl
  rw [hhead]
  exact this

lemma trimStr_idem (s : Str) : trimStr (trimStr s) = trimStr s := by
  unfold trimStr ltrimStr
  set z := s.dropWhile isWsChar with hz
  have hzd : z.dropWhile isWsChar = z := dropWhile_idem _ _
  have hpref : (z.reverse.dropWhile isWsChar).reverse <+: z := by
    have hsuf : z.reverse.dropWhile isWsChar <:+ z.reverse :=
      List.dropWhile_suffix _
    have := List.reverse_prefix.mpr hsuf
    simpa using this
  rw [dropWhile_prefix_of_dropWhile_eq hzd hpref]
  rw [List.reverse_reverse, dropWhile_idem]

lemma nameKey_trimStr (s : Str) : nameKey (trimStr s) = nameKey s := by
  unfold nameKey
  rw [lowerStr_trimStr, trimStr_idem]

/-! ## Shopping list data model (src/services/shoppingListService.js) -/

/-- The `priority` enum of shopping-list items and recipes. -/
inductive Priority where
  | high
  | medium
  | low
deriving DecidableEq, Repr

/-- The `priorityOrder` table `{ high: 3, medium: 2, low: 1 }`. -/
def prioVal : Priority → Nat
  | .high => 3
  | .medium => 2
  | .low => 1

/-- JS table lookup `priorityOrder[p]`: `none` (≈ `undefined`, giving `NaN`
in arithmetic) when the key itself is `undefined`. -/
def prioLookup : Option Priority → Option Nat
  | some p => some (prioVal p)
  | none => none

/-- `getHigherPriority` (shoppingListService.js:350): returns `priority1` iff
`priorityOrder[priority1] >= priorityOrder[priority2]`; any comparison with
`NaN` is false in JS, so an undefined operand makes it return `priority2`. -/
def getHigherPriority (p1 p2 : Option Priority) : Option Priority :=
  match prioLookup p1, prioLookup p2 with
  | some v1, some v2 => if v1 ≥ v2 then p1 else p2
  | _, _ => p2

/-- JS template-string rendering of a possibly-undefined string. -/
def jsShow : Option Str → Str
  | some s => s
  | none => "undefined".data

/-- `combineAmounts` (shoppingListService.js:342): equal amounts collapse,
otherwise textual concatenation `"{a1} + {a2}"`. -/
def combineAmounts (a1 a2 : Option Str) : Option Str :=
  if a1 = a2 then a1 else some (jsShow a1 ++ " + ".data ++ jsShow a2)

/-- JS `v || d` for a possibly-undefined string `v`: the empty string is
falsy. -/
def jsOrStr (v : Option Str) (d : Str) : Str :=
  match v with
  | some s => if s = [] then d else s
  | none => d

/-- A stored shopping-list entry. `priority` and `amount` stay optional:
a merge with an add that omits them stores `undefined`. -/
structure SLItem where
  id : Str
  name : Str
  amount : Option Str
  category : Str
  categoryIcon : Str
  isChecked : Bool
  priority : Option Priority
  addedDate : Nat
  source : Str
  recipeId : Option Str
  recipeName : Option Str
  essential : Bool
deriving DecidableEq, Repr

/-- The argument object of `addToShoppingList`; every field but `name` may be
absent at call sites. The `essential` flag is kept as `Bool` (`undefined`
collapses to `false`: every use is a truthiness test or a disjunction). -/
structure SLAdd where
  name : Str
  amount : Option Str
  category : Option Str
  categoryIcon : Option Str
  priority : Option Priority
  source : Option Str
  recipeId : Option Str
  recipeName : Option Str
  essential : Bool
deriving DecidableEq, Repr

/-- Id generation `shopping-{Date.now()}-{random}` (random suffix not
modelled). -/
def genShoppingId (now : Nat) : Str :=
  "shopping-".data ++ (Nat.repr now).data

/-- The new-entry branch of `addToShoppingList` (lines 77-90). -/
def newShoppingItem (a : SLAdd) (now : Nat) : SLItem where
  id := genShoppingId now
  name := trimStr a.name
  amount := some (jsOrStr a.amount "1 stk".data)
  category := jsOrStr a.category "Andre".data
  categoryIcon := jsOrStr a.categoryIcon "🛒".data
  isChecked := false
  priority := some (a.priority.getD .medium)
  addedDate := now
  source := jsOrStr a.source "manual".data
  recipeId := a.recipeId
  recipeName := a.recipeName
  essential := a.essential

/-- The merge branch of `addToShoppingList` (lines 66-74): spread of the
existing entry with combined amount, max priority, OR-ed essential flag,
`isChecked` reset and refreshed date. -/
def mergeShoppingItem (e : SLItem) (a : SLAdd) (now : Nat) : SLItem :=
  { e with
    amount := combineAmounts e.amount a.amount
    priority := getHigherPriority e.priority a.priority
    essential := e.essential || a.essential
    isChecked := false
    addedDate := now }

/-- `addToShoppingList` (shoppingListService.js:55): find an entry with the
same case-insensitive-trimmed name; merge into it, or push a new entry. -/
def addToShoppingList (now : Nat) (l : List SLItem) (a : SLAdd) :
    List SLItem :=
  match l.findIdx? (fun e => nameKey e.name == nameKey a.name) with
  | some i =>
    match l[i]? with
    | some e => l.set i (mergeShoppingItem e a now)
    | none => l
  | none => l ++ [newShoppingItem a now]

/-- Structural form of `addToShoppingList`, convenient for induction. -/
def addKeyed (a : SLAdd) (now : Nat) : List SLItem → List SLItem
  | [] => [newShoppingItem a now]
  | e :: es =>
    if nameKey e.name = nameKey a.name then
      mergeShoppingItem e a now :: es
    else
      e :: addKeyed a now es

lemma addToShoppingList_eq_addKeyed (now : Nat) (l : List SLItem)
    (a : SLAdd) : addToShoppingList now l a = addKeyed a now l := by
  induction l with
  | nil => rfl
  | cons e es ih =>
    by_cases h : nameKey e.name = nameKey a.name
    · unfold addToShoppingList addKeyed
      rw [List.findIdx?_cons]
      simp [h]
    · unfold addKeyed
      rw [if_neg h, ← ih]
      unfold addToShoppingList
      rw [List.findIdx?_cons]
      have hb : (nameKey e.name == nameKey a.name) = false :=
        beq_eq_false_iff_ne.mpr h
      rw [hb]
      simp only [Bool.false_eq_true, if_false, List.findIdx?_succ]
      cases List.findIdx? (fun e => nameKey e.name == nameKey a.name) es with
      | none => simp
      | some i =>
        simp only [Option.map_some, List.getElem?_cons_succ]
        cases hgi : es[i]? with
        | none => simp [hgi]
        | some e' => simp [hgi, List.set_cons_succ]

/-! ## Merge-invariant machinery for sequences of adds -/

/-- All adds of a sequence whose name has the given merge key. -/
def addsFor (k : Str) (adds : List SLAdd) : List SLAdd :=
  adds.filter (fun a => nameKey a.name == k)

/-- Numeric view of a possibly-undefined priority (0 for `undefined`). -/
def prioNat (p : Option Priority) : Nat := (p.map prioVal).getD 0

/-- Maximal priority value occurring in a list of adds. -/
def maxPrioNat (as : List SLAdd) : Nat :=
  as.foldr (fun a m => max (prioNat a.priority) m) 0

lemma maxPrioNat_init (xs : List SLAdd) (b : Nat) :
    xs.foldr (fun a m => max (prioNat a.priority) m) b = max b (maxPrioNat xs) := by
  induction xs generalizing b with
  | nil => simp [maxPrioNat]
  | cons x xs ih =>
    rw [List.foldr_cons, ih]
    have hx : maxPrioNat (x :: xs) = max (prioNat x.priority) (maxPrioNat xs) :=
      rfl
    rw [hx]
    omega

lemma maxPrioNat_append_singleton (xs : List SLAdd) (a : SLAdd) :
    maxPrioNat (xs ++ [a]) = max (maxPrioNat xs) (prioNat a.priority) := by
  unfold maxPrioNat
  rw [List.foldr_append, List.foldr_cons, List.foldr_nil, maxPrioNat_init]
  unfold maxPrioNat
  omega

lemma addsFor_append_singleton (k : Str) (hist : List SLAdd) (a : SLAdd) :
    addsFor k (hist ++ [a]) =
      addsFor k hist ++ (if nameKey a.name = k then [a] else []) := by
  unfold addsFor
  rw [List.filter_append]
  congr 1
  by_cases h : nameKey a.name = k <;> simp [h]

lemma prioNat_getHigherPriority (p q : Priority) :
    prioNat (getHigherPriority (some p) (some q)) =
      max (prioVal p) (prioVal q) := by
  unfold getHigherPriority prioLookup prioNat
  by_cases h : prioVal p ≥ prioVal q
  · simp only [if_pos h, Option.map_some', Option.getD_some]
    omega
  · simp only [if_neg h, Option.map_some', Option.getD_some]
    omega

/-- Invariant tying the collection to the multiset of adds already
processed. -/
def SLInv (hist : List SLAdd) (l : List SLItem) : Prop :=
  (l.map (fun e => nameKey e.name)).Nodup ∧
  (∀ a ∈ hist, ∃ e ∈ l, nameKey e.name = nameKey a.name) ∧
  (∀ e ∈ l,
    addsFor (nameKey e.name) hist ≠ [] ∧
    e.priority.isSome ∧
    e.essential = (addsFor (nameKey e.name) hist).any (·.essential) ∧
    prioNat e.priority = maxPrioNat (addsFor (nameKey e.name) hist))

lemma addKeyed_of_forall_ne (a : SLAdd) (now : Nat) (l : List SLItem)
    (h : ∀ e ∈ l, nameKey e.name ≠ nameKey a.name) :
    addKeyed a now l = l ++ [newShoppingItem a now] := by
  induction l with
  | nil => rfl
  | cons e es ih =>
    unfold addKeyed
    rw [if_neg (h e (List.mem_cons_self e es))]
    rw [ih fun x hx => h x (List.mem_cons_of_mem e hx)]
    rfl

lemma addKeyed_decomp (a : SLAdd) (now : Nat) (l : List SLItem)
    (h : ∃ e ∈ l, nameKey e.name = nameKey a.name) :
    ∃ l₁ e₀ l₂, l = l₁ ++ e₀ :: l₂ ∧
      (∀ x ∈ l₁, nameKey x.name ≠ nameKey a.name) ∧
      nameKey e₀.name = nameKey a.name ∧
      addKeyed a now l = l₁ ++ mergeShoppingItem e₀ a now :: l₂ := by
  induction l with
  | nil => simp at h
  | cons e es ih =>
    by_cases he : nameKey e.name = nameKey a.name
    · exact ⟨[], e, es, rfl, by simp, he, by unfold addKeyed; rw [if_pos he]; rfl⟩
    · obtain ⟨e', he', hk⟩ := h
      rcases List.mem_cons.mp he' with rfl | hmem
      · exact absurd hk he
      · obtain ⟨l₁, e₀, l₂, hdec, hne, hk₀, hadd⟩ := ih ⟨e', hmem, hk⟩
        refine ⟨e :: l₁, e₀, l₂, by rw [hdec]; rfl, ?_, hk₀, ?_⟩
        · intro x hx
          rcases List.mem_cons.mp hx with rfl | hx'
          · exact he
          · exact hne x hx'
        · unfold addKeyed
          rw [if_neg he, hadd]
          rfl

lemma SLInv_step (hist : List SLAdd) (l : List SLItem) (a : SLAdd) (now : Nat)
    (hinv : SLInv hist l) (hp : a.priority.isSome) :
    SLInv (hist ++ [a]) (addKeyed a now l) := by
  obtain ⟨hnd, hcomp, hent⟩ := hinv
  obtain ⟨p, hps⟩ := Option.isSome_iff_exists.mp hp
  by_cases hfound : ∃ e ∈ l, nameKey e.name = nameKey a.name
  · obtain ⟨l₁, e₀, l₂, hdec, hne₁, hk₀, hadd⟩ := addKeyed_decomp a now l hfound
    subst hdec
    rw [hadd]
    have hk₂ : ∀ x ∈ l₂, nameKey x.name ≠ nameKey a.name := by
      intro x hx hxk
      have := hnd
      rw [List.map_append, List.map_cons] at this
      have h2 := (List.nodup_append.mp this).2.1
      have h3 := List.nodup_cons.mp h2
      exact h3.1 (by
        rw [hk₀, ← hxk]
        exact List.mem_map_of_mem (fun e => nameKey e.name) hx)
    constructor
    · have : (List.map (fun e => nameKey e.name)
          (l₁ ++ mergeShoppingItem e₀ a now :: l₂)) =
          (List.map (fun e => nameKey e.name) (l₁ ++ e₀ :: l₂)) := by
        simp [mergeShoppingItem]
      rw [this]
      exact hnd
    constructor
    · intro a' ha'
      rcases List.mem_append.mp ha' with hh | hh
      · obtain ⟨e, he, hke⟩ := hcomp a' hh
        rcases List.mem_append.mp he with h1 | h1
        · exact ⟨e, List.mem_append_left _ h1, hke⟩
        · rcases List.mem_cons.mp h1 with rfl | h2
          · refine ⟨mergeShoppingItem e a now, ?_, ?_⟩
            · exact List.mem_append_right _ (List.mem_cons_self _ _)
            · simpa [mergeShoppingItem] using hke
          · exact ⟨e, List.mem_append_right _ (List.mem_cons_of_mem _ h2), hke⟩
      · have haa := List.mem_singleton.mp hh
        refine ⟨mergeShoppingItem e₀ a now, ?_, ?_⟩
        · exact List.mem_append_right _ (List.mem_cons_self _ _)
        · rw [haa]
          simpa [mergeShoppingItem] using hk₀
    · intro e he
      rcases List.mem_append.mp he with h1 | h1
      · -- untouched entry left of the merge point
        have hmem : e ∈ l₁ ++ e₀ :: l₂ := List.mem_append_left _ h1
        have hkne : nameKey e.name ≠ nameKey a.name := hne₁ e h1
        have := hent e hmem
        rw [addsFor_append_singleton, if_neg (fun hh => hkne hh.symm),
          List.append_nil]
        exact this
      · rcases List.mem_cons.mp h1 with rfl | h2
        · -- the merged entry
          have hmem : e₀ ∈ l₁ ++ e₀ :: l₂ :=
            List.mem_append_right _ (List.mem_cons_self _ _)
          obtain ⟨hne0, hps0, hess0, hprio0⟩ := hent e₀ hmem
          have hkeq : nameKey (mergeShoppingItem e₀ a now).name =
              nameKey e₀.name := by simp [mergeShoppingItem]
          rw [hkeq, hk₀, addsFor_append_singleton, if_pos rfl]
          obtain ⟨p₀, hps0'⟩ := Option.isSome_iff_exists.mp hps0
          refine ⟨by simp, ?_, ?_, ?_⟩
          · simp [mergeShoppingItem, getHigherPriority, hps0', hps, prioLookup]
            by_cases hge : prioVal p₀ ≥ prioVal p <;> simp [hge]
          · rw [List.any_append]
            have hme : (mergeShoppingItem e₀ a now).essential =
                (e₀.essential || a.essential) := rfl
            rw [hme, hess0, hk₀]
            simp
          · have : (mergeShoppingItem e₀ a now).priority =
                getHigherPriority e₀.priority a.priority := rfl
            rw [this, hps0', hps, prioNat_getHigherPriority,
              maxPrioNat_append_singleton, ← hk₀]
            rw [hps0'] at hprio0
            have hpn : prioNat (some p₀) = prioVal p₀ := rfl
            rw [hpn] at hprio0
            rw [hprio0, hps]
            rfl
        · -- untouched entry right of the merge point
          have hmem : e ∈ l₁ ++ e₀ :: l₂ :=
            List.mem_append_right _ (List.mem_cons_of_mem _ h2)
          have hkne : nameKey e.name ≠ nameKey a.name := hk₂ e h2
          have := hent e hmem
          rw [addsFor_append_singleton, if_neg (fun hh => hkne hh.symm),
            List.append_nil]
          exact this
  · push_neg at hfound
    rw [addKeyed_of_forall_ne a now l hfound]
    have hknew : nameKey (newShoppingItem a now).name = nameKey a.name := by
      have : (newShoppingItem a now).name = trimStr a.name := rfl
      rw [this, nameKey_trimStr]
    have hnotin : nameKey a.name ∉
        List.map (fun e => nameKey e.name) l := by
      intro hmem
      obtain ⟨e, he, hke⟩ := List.mem_map.mp hmem
      exact hfound e he hke
    constructor
    · rw [List.map_append]
      simp only [List.map_cons, List.map_nil]
      rw [List.nodup_append]
      refine ⟨hnd, by simp, ?_⟩
      simp only [List.disjoint_singleton]
      rw [hknew]
      exact hnotin
    constructor
    · intro a' ha'
      rcases List.mem_append.mp ha' with hh | hh
      · obtain ⟨e, he, hke⟩ := hcomp a' hh
        exact ⟨e, List.mem_append_left _ he, hke⟩
      · have haa := List.mem_singleton.mp hh
        exact ⟨newShoppingItem a now,
          List.mem_append_right _ (List.mem_singleton_self _),
          by rw [haa]; exact hknew⟩
    · intro e he
      rcases List.mem_append.mp he with h1 | h1
      · have hkne : nameKey e.name ≠ nameKey a.name := hfound e h1
        have := hent e h1
        rw [addsFor_append_singleton, if_neg (fun hh => hkne hh.symm),
          List.append_nil]
        exact this
      · rcases List.mem_singleton.mp h1 with rfl
        rw [hknew]
        have hempty : addsFor (nameKey a.name) hist = [] := by
          by_contra hne
          obtain ⟨a', ha'⟩ := List.exists_mem_of_ne_nil _ hne
          have ha'h : a' ∈ hist := List.mem_of_mem_filter ha'
          have hka' : nameKey a'.name = nameKey a.name := by
            have := List.of_mem_filter ha'
            simpa using this
          obtain ⟨e, he, hke⟩ := hcomp a' ha'h
          exact hfound e he (hke.trans hka')
        rw [addsFor_append_singleton, if_pos rfl, hempty, List.nil_append]
        refine ⟨by simp, by simp [newShoppingItem], ?_, ?_⟩
        · have : (newShoppingItem a now).essential = a.essential := rfl
          rw [this]
          simp
        · have : (newShoppingItem a now).priority =
              some (a.priority.getD .medium) := rfl
          rw [this, hps]
          have h1 : prioNat (some ((some p).getD Priority.medium)) =
              prioVal p := rfl
          have h2 : maxPrioNat [a] = max (prioNat a.priority) 0 := rfl
          rw [h1, h2, hps]
          have : prioNat (some p) = prioVal p := rfl
          rw [this]
          omega

lemma SLInv_foldl (now : Nat) (adds : List SLAdd) :
    ∀ (hist : List SLAdd) (l : List SLItem),
      (∀ x ∈ adds, x.priority.isSome) → SLInv hist l →
      SLInv (hist ++ adds) (adds.foldl (fun acc x => addKeyed x now acc) l) := by
  induction adds with
  | nil => intro hist l _ h; simpa using h
  | cons a rest ih =>
    intro hist l hps hinv
    have hstep := SLInv_step hist l a now hinv
      (hps a (List.mem_cons_self _ _))
    have := ih (hist ++ [a]) (addKeyed a now l)
      (fun x hx => hps x (List.mem_cons_of_mem _ hx)) hstep
    simpa [List.append_assoc] using this

/-- Folding a sequence of adds over `addToShoppingList`, starting from the
empty collection. -/
def runAdds (now : Nat) (adds : List SLAdd) : List SLItem :=
  adds.foldl (addToShoppingList now) []

lemma foldl_add_eq_foldl_addKeyed (now : Nat) :
    ∀ (adds : List SLAdd) (l : List SLItem),
      adds.foldl (addToShoppingList now) l =
        adds.foldl (fun acc x => addKeyed x now acc) l := by
  intro adds
  induction adds with
  | nil => intro l; rfl
  | cons a rest ih =>
    intro l
    simp only [List.foldl_cons, addToShoppingList_eq_addKeyed, ih]

lemma runAdds_inv (now : Nat) (adds : List SLAdd)
    (hps : ∀ x ∈ adds, x.priority.isSome) :
    SLInv adds (runAdds now adds) := by
  unfold runAdds
  rw [foldl_add_eq_foldl_addKeyed]
  have := SLInv_foldl now adds [] [] hps
    ⟨by simp, by simp, by simp⟩
  simpa using this

/-- C1: for every sequence of adds (each carrying a priority), the resulting
collection has at most one entry per case-insensitive-trimmed name; that
entry's essential flag is the OR of the essential flags of all adds for the
name and its priority is the maximum of their priorities
(high > medium > low); every merging add stores the combined amount
(`"{old} + {new}"` when different, unchanged when equal) and forcibly resets
`isChecked` to `false`. -/
theorem shopping_merge_policy_C1 (now : Nat) (adds : List SLAdd)
    (hps : ∀ x ∈ adds, x.priority.isSome) :
    ((runAdds now adds).map (fun e => nameKey e.name)).Nodup ∧
    (∀ e ∈ runAdds now adds,
      e.essential = (addsFor (nameKey e.name) adds).any (·.essential) ∧
      ∃ p, e.priority = some p ∧
        prioVal p = maxPrioNat (addsFor (nameKey e.name) adds)) ∧
    (∀ (l : List SLItem) (a : SLAdd) (i : Nat) (e : SLItem),
      l.findIdx? (fun e' => nameKey e'.name == nameKey a.name) = some i →
      l[i]? = some e →
      addToShoppingList now l a = l.set i (mergeShoppingItem e a now)) ∧
    (∀ (e : SLItem) (a : SLAdd),
      (mergeShoppingItem e a now).isChecked = false ∧
      (mergeShoppingItem e a now).amount = combineAmounts e.amount a.amount) ∧
    (∀ x y : Str, combineAmounts (some x) (some y) =
      if x = y then some x else some (x ++ " + ".data ++ y)) := by
  obtain ⟨hnd, _, hent⟩ := runAdds_inv now adds hps
  refine ⟨hnd, ?_, ?_, ?_, ?_⟩
  · intro e he
    obtain ⟨_, hs, hess, hprio⟩ := hent e he
    obtain ⟨p, hp⟩ := Option.isSome_iff_exists.mp hs
    refine ⟨hess, p, hp, ?_⟩
    rw [← hprio, hp]
    rfl
  · intro l a i e hfi hgi
    unfold addToShoppingList
    simp only [hfi, hgi]
  · intro e a
    exact ⟨rfl, rfl⟩
  · intro x y
    by_cases h : x = y <;> simp [h, combineAmounts, jsShow]

/-- Concrete add sequence exercising the merge policy. -/
def c1adds : List SLAdd :=
  [⟨"Milk".data, some "1L".data, none, none, some .medium, none, none, none,
    false⟩,
   ⟨"milk ".data, some "2L".data, none, none, some .high, none, none, none,
    true⟩]

theorem shopping_merge_policy_C1_witness :
    ((runAdds 0 c1adds).map (fun e => nameKey e.name)).Nodup ∧
    (∀ e ∈ runAdds 0 c1adds,
      e.essential = (addsFor (nameKey e.name) c1adds).any (·.essential) ∧
      ∃ p, e.priority = some p ∧
        prioVal p = maxPrioNat (addsFor (nameKey e.name) c1adds)) :=
  ⟨(shopping_merge_policy_C1 0 c1adds (by decide)).1,
   (shopping_merge_policy_C1 0 c1adds (by decide)).2.1⟩

/-! ## Ingredient categorizer and recipe adds -/

/-- A category produced by `categorizeIngredient`. -/
structure CatInfo where
  name : Str
  icon : Str
deriving DecidableEq, Repr

/-- Model of JS `hay.includes(needle)`: contiguous-substring test. -/
def strIncludes (needle hay : Str) : Bool :=
  match hay with
  | [] => needle.isEmpty
  | _ :: t => needle.isPrefixOf hay || strIncludes needle t

lemma strIncludes_iff_infix (needle hay : Str) :
    strIncludes needle hay = true ↔ needle <:+: hay := by
  induction hay with
  | nil =>
    simp [strIncludes, List.isEmpty_iff]
  | cons a t ih =>
    simp only [strIncludes, Bool.or_eq_true, List.isPrefixOf_iff_prefix, ih,
      List.infix_cons_iff]

/-- JS `words.some(word => lowerName.includes(word))`. -/
def kwAny (ws : List String) (s : Str) : Bool :=
  ws.any (fun w => strIncludes w.data s)

/-- `categorizeIngredient` (shoppingListService.js:297): keyword substring
rules tried in a fixed order, default category `Andre`. -/
def categorizeIngredient (name : Str) : CatInfo :=
  let lowerName := lowerStr name
  if kwAny ["mælk", "fløde", "yoghurt", "ost", "smør", "kærnemælk"]
      lowerName then
    ⟨"Mejeriprodukter".data, "🥛".data⟩
  else if kwAny ["kød", "kylling", "oksekød", "svinekød", "fisk", "laks",
      "tuna", "hakket"] lowerName then
    ⟨"Kød & Fisk".data, "🥩".data⟩
  else if kwAny ["løg", "gulerod", "kartoffel", "tomat", "salat",
      "peberfrugt", "broccoli", "spinat", "courgette", "aubergine", "agurk",
      "grøntsag"] lowerName then
    ⟨"Grøntsager".data, "🥕".data⟩
  else if kwAny ["æble", "banan", "appelsin", "citron", "pære", "jordbær",
      "blåbær", "kiwi", "mango", "ananas", "frugt"] lowerName then
    ⟨"Frugt".data, "🍎".data⟩
  else if kwAny ["brød", "pasta", "ris", "mel", "havregryn", "quinoa",
      "bulgur"] lowerName then
    ⟨"Brød & Korn".data, "🍞".data⟩
  else if kwAny ["salt", "peber", "krydderi", "oregano", "basilikum", "soja",
      "olie", "eddike", "honning", "sukker"] lowerName then
    ⟨"Krydderier".data, "🧂".data⟩
  else if kwAny ["æg"] lowerName then
    ⟨"Æg".data, "🥚".data⟩
  else
    ⟨"Andre".data, "🛒".data⟩

/-- A missing ingredient of a recipe (name, amount, essential flag). -/
structure MissingIngredient where
  name : Str
  amount : Option Str
  essential : Bool
deriving DecidableEq, Repr

/-- The slice of a recipe record read by `addRecipeToShoppingList`. -/
structure SLRecipe where
  id : Option Str
  title : Option Str
  missingIngredients : Option (List MissingIngredient)
deriving DecidableEq, Repr

/-- The item descriptor built per missing ingredient
(shoppingListService.js:118-128). -/
def recipeAddItem (recipe : SLRecipe) (ing : MissingIngredient) : SLAdd :=
  let cat := categorizeIngredient ing.name
  { name := ing.name
    amount := ing.amount
    category := some cat.name
    categoryIcon := some cat.icon
    priority := some (if ing.essential then .high else .medium)
    source := some "recipe".data
    recipeId := recipe.id
    recipeName := recipe.title
    essential := ing.essential }

/-- The new-entry branch inside `addRecipeToShoppingList` (lines 148-155):
a plain spread of the descriptor — unlike `addToShoppingList` it neither
trims the name nor defaults the amount. -/
def newRecipeShoppingItem (recipe : SLRecipe) (ing : MissingIngredient)
    (now : Nat) : SLItem where
  id := genShoppingId now
  name := ing.name
  amount := ing.amount
  category := (categorizeIngredient ing.name).name
  categoryIcon := (categorizeIngredient ing.name).icon
  isChecked := false
  priority := some (if ing.essential then .high else .medium)
  addedDate := now
  source := "recipe".data
  recipeId := recipe.id
  recipeName := recipe.title
  essential := ing.essential

/-- One loop iteration of `addRecipeToShoppingList` (lines 114-157) on the
pair (collection, addedCount). -/
def addRecipeStep (recipe : SLRecipe) (now : Nat)
    (acc : List SLItem × Nat) (ing : MissingIngredient) :
    List SLItem × Nat :=
  match acc.1.findIdx? (fun e =>
      nameKey e.name == nameKey (recipeAddItem recipe ing).name) with
  | some i =>
    match acc.1[i]? with
    | some e =>
      (acc.1.set i (mergeShoppingItem e (recipeAddItem recipe ing) now),
        acc.2)
    | none => acc
  | none => (acc.1 ++ [newRecipeShoppingItem recipe ing now], acc.2 + 1)

/-- `addRecipeToShoppingList` (shoppingListService.js:105): a domain error
when the recipe has no missing ingredients (raised before the collection is
read or written), else merge-or-create per ingredient, returning the count
of newly created entries and the final total. -/
def addRecipeToShoppingList (now : Nat) (l : List SLItem)
    (recipe : SLRecipe) : Except Str (List SLItem × Nat × Nat) :=
  match recipe.missingIngredients with
  | none => .error "Ingen manglende ingredienser at tilføje".data
  | some mis =>
    if mis = [] then .error "Ingen manglende ingredienser at tilføje".data
    else
      let res := mis.foldl (addRecipeStep recipe now) (l, 0)
      .ok (res.1, res.2, res.1.length)

lemma addRecipeStep_length (k : Nat) (recipe : SLRecipe) (now : Nat)
    (acc : List SLItem × Nat) (ing : MissingIngredient)
    (h : acc.1.length = acc.2 + k) :
    (addRecipeStep recipe now acc ing).1.length =
      (addRecipeStep recipe now acc ing).2 + k := by
  unfold addRecipeStep
  cases hfi : acc.1.findIdx? (fun e =>
      nameKey e.name == nameKey (recipeAddItem recipe ing).name) with
  | none =>
    simp only [hfi, List.length_append, List.length_cons, List.length_nil]
    omega
  | some i =>
    cases hgi : acc.1[i]? with
    | none => simp only [hfi, hgi]; exact h
    | some e =>
      simp only [hfi, hgi, List.length_set]
      exact h

lemma addRecipeFold_length (k : Nat) (recipe : SLRecipe) (now : Nat)
    (mis : List MissingIngredient) :
    ∀ (acc : List SLItem × Nat), acc.1.length = acc.2 + k →
      (mis.foldl (addRecipeStep recipe now) acc).1.length =
        (mis.foldl (addRecipeStep recipe now) acc).2 + k := by
  induction mis with
  | nil => intro acc h; simpa using h
  | cons ing rest ih =>
    intro acc h
    rw [List.foldl_cons]
    exact ih _ (addRecipeStep_length k recipe now acc ing h)

/-- C6: `addRecipeToShoppingList` fails with the domain error — and touches
no state — exactly when the missing-ingredients list is absent or empty;
otherwise it succeeds, reporting the count of newly created entries (the
growth of the collection) and the resulting total size. -/
theorem addFromRecipe_validation_C6 (now : Nat) (l : List SLItem)
    (recipe : SLRecipe) :
    ((recipe.missingIngredients = none ∨ recipe.missingIngredients = some []) →
      addRecipeToShoppingList now l recipe =
        .error "Ingen manglende ingredienser at tilføje".data) ∧
    (∀ mis, recipe.missingIngredients = some mis → mis ≠ [] →
      ∃ l' added, addRecipeToShoppingList now l recipe = .ok (l', added, l'.length) ∧
        l'.length = l.length + added) := by
  constructor
  · intro h
    rcases h with h | h <;> simp [addRecipeToShoppingList, h]
  · intro mis hm hne
    unfold addRecipeToShoppingList
    simp only [hm]
    rw [if_neg hne]
    refine ⟨(mis.foldl (addRecipeStep recipe now) (l, 0)).1,
      (mis.foldl (addRecipeStep recipe now) (l, 0)).2, rfl, ?_⟩
    have := addRecipeFold_length l.length recipe now mis (l, 0) (by simp)
    omega

/-- Recipe with an empty missing-ingredients list. -/
def c6emptyRecipe : SLRecipe := ⟨some "r1".data, some "Suppe".data, some []⟩

/-- Recipe with one missing ingredient. -/
def c6recipe : SLRecipe :=
  ⟨some "r2".data, some "Salat".data,
   some [⟨"tomat".data, some "2 stk".data, true⟩]⟩

theorem addFromRecipe_validation_C6_witness :
    addRecipeToShoppingList 0 [] c6emptyRecipe =
      .error "Ingen manglende ingredienser at tilføje".data ∧
    ∃ l' added, addRecipeToShoppingList 0 [] c6recipe = .ok (l', added, l'.length) ∧
      l'.length = added :=
  ⟨(addFromRecipe_validation_C6 0 [] c6emptyRecipe).1 (Or.inr rfl),
   by
    obtain ⟨l', added, h1, h2⟩ :=
      (addFromRecipe_validation_C6 0 [] c6recipe).2
        [⟨"tomat".data, some "2 stk".data, true⟩] rfl (by decide)
    exact ⟨l', added, h1, by simpa using h2⟩⟩

/-- C10: the `"1 stk"` amount default applies only to newly created entries;
a merging add with an absent amount stores the literal
`"{existing amount} + undefined"` instead of the default. -/
theorem merge_amount_undefined_C10 :
    (∀ (now : Nat) (l : List SLItem) (a : SLAdd) (i : Nat) (e : SLItem)
        (s : Str),
      l.findIdx? (fun e' => nameKey e'.name == nameKey a.name) = some i →
      l[i]? = some e → e.amount = some s → a.amount = none →
      addToShoppingList now l a = l.set i (mergeShoppingItem e a now) ∧
      (mergeShoppingItem e a now).amount =
        some (s ++ " + undefined".data)) ∧
    (∀ (now : Nat) (l : List SLItem) (a : SLAdd),
      l.findIdx? (fun e' => nameKey e'.name == nameKey a.name) = none →
      a.amount = none →
      addToShoppingList now l a = l ++ [newShoppingItem a now] ∧
      (newShoppingItem a now).amount = some "1 stk".data) := by
  constructor
  · intro now l a i e s hfi hgi hes han
    constructor
    · unfold addToShoppingList
      simp only [hfi, hgi]
    · have : (mergeShoppingItem e a now).amount =
          combineAmounts e.amount a.amount := rfl
      rw [this, hes, han, combineAmounts]
      rw [if_neg (by simp)]
      have hshow : jsShow (some s) = s := rfl
      rw [hshow]
      have : jsShow none = "undefined".data := rfl
      rw [this, List.append_assoc]
      rfl
  · intro now l a hfi han
    constructor
    · unfold addToShoppingList
      simp only [hfi]
    · have : (newShoppingItem a now).amount =
          some (jsOrStr a.amount "1 stk".data) := rfl
      rw [this, han]
      rfl

/-- Existing entry matched by the C10 witness add. -/
def c10item : SLItem :=
  ⟨"shopping-0".data, "mælk".data, some "1L".data, "Andre".data, "🛒".data,
   false, some .medium, 0, "manual".data, none, none, false⟩

/-- Add with an absent amount merging into `c10item`. -/
def c10add : SLAdd :=
  ⟨"Mælk".data, none, none, none, some .high, none, none, none, false⟩

theorem merge_amount_undefined_C10_witness :
    addToShoppingList 1 [c10item] c10add =
      [c10item].set 0 (mergeShoppingItem c10item c10add 1) ∧
    (mergeShoppingItem c10item c10add 1).amount =
      some "1L + undefined".data :=
  merge_amount_undefined_C10.1 1 [c10item] c10add 0 c10item "1L".data
    (by decide) (by decide) (by decide) (by decide)

/-! ## Categories (src/services/categoryStorage.js, AppContext) -/

/-- A stored category. -/
structure Category where
  id : Str
  name : Str
  icon : Str
deriving DecidableEq, Repr

/-- The slice of a food item relevant to category reassignment. -/
structure FoodItem where
  id : Str
  name : Str
  categoryId : Str
deriving DecidableEq, Repr

/-- `DEFAULT_CATEGORIES` (categoryStorage.js:9). -/
def DEFAULT_CATEGORIES : List Category :=
  [⟨"fridge".data, "Køleskab".data, "❄️".data⟩,
   ⟨"freezer".data, "Fryser".data, "🧊".data⟩]

/-- `deleteCategory` (categoryStorage.js:85): plain filter by id — no guard
of any kind for the two default identifiers. -/
def deleteCategory (categories : List Category) (categoryId : Str) :
    List Category :=
  categories.filter (fun cat => cat.id != categoryId)

/-- `removeCategory` of the app context: deletes the category record, then
maps every item with the deleted `categoryId` to the literal `'pantry'`. -/
def removeCategory (categories : List Category) (items : List FoodItem)
    (categoryId : Str) : List Category × List FoodItem :=
  (deleteCategory categories categoryId,
   items.map (fun item =>
     if item.categoryId = categoryId then
       { item with categoryId := "pantry".data }
     else item))

/-- Failing input for the reassignment invariant: the seeded defaults plus
one custom category holding one item. -/
def c4categories : List Category :=
  DEFAULT_CATEGORIES ++ [⟨"custom1".data, "Skab".data, "📦".data⟩]

/-- The single item referencing the custom category. -/
def c4items : List FoodItem := [⟨"1".data, "Ost".data, "custom1".data⟩]

/-- C4 (code bug): deleting the custom category reassigns its item to the
literal id `'pantry'`, which is absent from the remaining category list —
an orphaned reference persists, contradicting the claimed invariant. -/
theorem category_delete_orphans_C4 :
    ((removeCategory c4categories c4items "custom1".data).2.map
        (fun it => it.categoryId) = ["pantry".data]) ∧
    "pantry".data ∉
      ((removeCategory c4categories c4items "custom1".data).1.map
        (fun cat => cat.id)) ∧
    ∃ it ∈ (removeCategory c4categories c4items "custom1".data).2,
      it.categoryId ∉
        ((removeCategory c4categories c4items "custom1".data).1.map
          (fun cat => cat.id)) := by
  decide

/-- C5 (code bug): the storage-level `deleteCategory` happily removes the
reserved default `'freezer'` from the seeded category list — there is no
rejection or no-op (and the Settings-screen category modal exposes a delete
button for every category, defaults included). -/
theorem default_category_deletable_C5 :
    deleteCategory DEFAULT_CATEGORIES "freezer".data =
      [⟨"fridge".data, "Køleskab".data, "❄️".data⟩] ∧
    "freezer".data ∉
      (deleteCategory DEFAULT_CATEGORIES "freezer".data).map
        (fun cat => cat.id) := by
  decide

/-! ## JS values and JSON.parse (for the AI recipe pipeline) -/

/-- A JS value as seen by the recipe pipeline. `undef` is JS `undefined`
(never produced by `JSON.parse`, but produced by missing-property reads);
numbers are modelled as exact rationals. -/
inductive JVal where
  | undef
  | null
  | bool (b : Bool)
  | num (q : ℚ)
  | str (s : Str)
  | arr (elems : List JVal)
  | obj (fields : List (Str × JVal))

/-- JSON whitespace (specified as space, TAB, LF, CR only). -/
def jsonWs (c : Char) : Bool :=
  decide (c.toNat = 32 ∨ c.toNat = 9 ∨ c.toNat = 10 ∨ c.toNat = 13)

def lbraceChar : Char := '\x7b'

def rbraceChar : Char := '\x7d'

/-- Hexadecimal digit value. -/
def hexVal (c : Char) : Option Nat :=
  if 48 ≤ c.toNat ∧ c.toNat ≤ 57 then some (c.toNat - 48)
  else if 97 ≤ c.toNat ∧ c.toNat ≤ 102 then some (c.toNat - 87)
  else if 65 ≤ c.toNat ∧ c.toNat ≤ 70 then some (c.toNat - 55)
  else none

def isDigitChar (c : Char) : Bool := decide (48 ≤ c.toNat ∧ c.toNat ≤ 57)

def digitsToNat (ds : Str) : Nat :=
  ds.foldl (fun n c => n * 10 + (c.toNat - 48)) 0

/-- Body of a JSON string after the opening quote; returns the decoded
characters and the remaining input, or `none` on an invalid string. -/
def jparseStrBody : Nat → Str → Option (Str × Str)
  | 0, _ => none
  | fuel + 1, s =>
    match s with
    | [] => none
    | c :: rest =>
      if c = '"' then some ([], rest)
      else if c = '\\' then
        match rest with
        | [] => none
        | e :: rest2 =>
          if e = '"' ∨ e = '\\' ∨ e = '/' then
            (jparseStrBody fuel rest2).map (fun p => (e :: p.1, p.2))
          else if e = 'b' then
            (jparseStrBody fuel rest2).map (fun p => ('\x08' :: p.1, p.2))
          else if e = 'f' then
            (jparseStrBody fuel rest2).map (fun p => ('\x0c' :: p.1, p.2))
          else if e = 'n' then
            (jparseStrBody fuel rest2).map (fun p => ('\n' :: p.1, p.2))
          else if e = 'r' then
            (jparseStrBody fuel rest2).map (fun p => ('\x0d' :: p.1, p.2))
          else if e = 't' then
            (jparseStrBody fuel rest2).map (fun p => ('\t' :: p.1, p.2))
          else if e = 'u' then
            match rest2 with
            | h1 :: h2 :: h3 :: h4 :: rest3 =>
              match hexVal h1, hexVal h2, hexVal h3, hexVal h4 with
              | some v1, some v2, some v3, some v4 =>
                (jparseStrBody fuel rest3).map (fun p =>
                  (Char.ofNat (((v1 * 16 + v2) * 16 + v3) * 16 + v4) ::
                    p.1, p.2))
              | _, _, _, _ => none
            | _ => none
          else none
      else if c.toNat < 32 then none
      else (jparseStrBody fuel rest).map (fun p => (c :: p.1, p.2))

/-- JSON number parsing: optional minus, integer part, optional fraction
and exponent; value returned as an exact rational. -/
def jparseNum (s : Str) : Option (ℚ × Str) :=
  let sign : ℚ × Str :=
    match s with
    | c :: r => if c = '-' then (-1, r) else (1, s)
    | [] => (1, s)
  let s1 := sign.2
  match s1 with
  | [] => none
  | c :: _ =>
    if ¬ isDigitChar c then none
    else
      let intDigits := if c = '0' then ['0'] else s1.takeWhile isDigitChar
      let s2 := if c = '0' then s1.drop 1 else s1.dropWhile isDigitChar
      let intPart : ℚ := (digitsToNat intDigits : ℚ)
      let fracState : ℚ × Str :=
        match s2 with
        | '.' :: r =>
          let fds := r.takeWhile isDigitChar
          ((digitsToNat fds : ℚ) / ((10 : ℚ) ^ fds.length),
            r.dropWhile isDigitChar)
        | _ => (0, s2)
      let hadBadFrac : Bool :=
        match s2 with
        | '.' :: r => (r.takeWhile isDigitChar).isEmpty
        | _ => false
      if hadBadFrac then none
      else
        let s3 := fracState.2
        let expState : Option (ℚ × Str) :=
          match s3 with
          | e :: r =>
            if e = 'e' ∨ e = 'E' then
              let (esign, r2) : Int × Str :=
                match r with
                | '+' :: rr => (1, rr)
                | '-' :: rr => (-1, rr)
                | _ => (1, r)
              let eds := r2.takeWhile isDigitChar
              if eds.isEmpty then none
              else
                let ev : ℚ := (10 : ℚ) ^ (digitsToNat eds)
                some (if esign = 1 then ev else 1 / ev,
                  r2.dropWhile isDigitChar)
            else some (1, s3)
          | [] => some (1, s3)
        match expState with
        | none => none
        | some (expFactor, s4) =>
          some (sign.1 * (intPart + fracState.1) * expFactor, s4)

mutual

/-- One JSON value (fuelled recursive-descent parser). -/
def jparseVal : Nat → Str → Option (JVal × Str)
  | 0, _ => none
  | fuel + 1, s =>
    match s with
    | [] => none
    | c :: rest =>
      if c = lbraceChar then
        let r1 := rest.dropWhile jsonWs
        match r1 with
        | d :: r2 =>
          if d = rbraceChar then some (.obj [], r2)
          else jparseFields fuel r1 []
        | [] => none
      else if c = '[' then
        let r1 := rest.dropWhile jsonWs
        match r1 with
        | d :: r2 =>
          if d = ']' then some (.arr [], r2)
          else jparseElems fuel r1 []
        | [] => none
      else if c = '"' then
        (jparseStrBody (fuel + 1) rest).map (fun p => (.str p.1, p.2))
      else if c = 't' then
        if "rue".data.isPrefixOf rest then some (.bool true, rest.drop 3)
        else none
      else if c = 'f' then
        if "alse".data.isPrefixOf rest then some (.bool false, rest.drop 4)
        else none
      else if c = 'n' then
        if "ull".data.isPrefixOf rest then some (.null, rest.drop 3)
        else none
      else if c = '-' ∨ isDigitChar c then
        (jparseNum s).map (fun p => (.num p.1, p.2))
      else none

/-- Array elements (after at least one element is known to follow). -/
def jparseElems (fuel : Nat) (s : Str) (acc : List JVal) :
    Option (JVal × Str) :=
  match fuel with
  | 0 => none
  | fuel + 1 =>
    match jparseVal fuel (s.dropWhile jsonWs) with
    | none => none
    | some (v, r) =>
      match r.dropWhile jsonWs with
      | ',' :: r2 => jparseElems fuel r2 (acc ++ [v])
      | d :: r2 =>
        if d = ']' then some (.arr (acc ++ [v]), r2) else none
      | [] => none

/-- Object members (after at least one member is known to follow). -/
def jparseFields (fuel : Nat) (s : Str) (acc : List (Str × JVal)) :
    Option (JVal × Str) :=
  match fuel with
  | 0 => none
  | fuel + 1 =>
    match s.dropWhile jsonWs with
    | '"' :: r1 =>
      match jparseStrBody fuel r1 with
      | none => none
      | some (key, r2) =>
        match r2.dropWhile jsonWs with
        | ':' :: r3 =>
          match jparseVal fuel (r3.dropWhile jsonWs) with
          | none => none
          | some (v, r4) =>
            match r4.dropWhile jsonWs with
            | ',' :: r5 => jparseFields fuel r5 (acc ++ [(key, v)])
            | d :: r5 =>
              if d = rbraceChar then some (.obj (acc ++ [(key, v)]), r5)
              else none
            | [] => none
        | _ => none
    | _ => none

end

/-- Model of `JSON.parse`: parse one value, demand full consumption modulo
whitespace. -/
def jsonParse (s : Str) : Option JVal :=
  match jparseVal (4 * s.length + 8) (s.dropWhile jsonWs) with
  | some (v, rest) => if rest.dropWhile jsonWs = [] then some v else none
  | none => none

/-! ## Recipe response parsing (aiRecipeService.js) -/

/-- One pass of `response.replace(/{token}\s*$/g, '')` for a literal token
followed by a whitespace run: scan left to right, drop each occurrence of
the token together with the following whitespace, never rescan emitted
text. -/
def stripTokenGo (tok : Str) : Nat → Str → Str
  | 0, s => s
  | fuel + 1, s =>
    match s with
    | [] => []
    | c :: rest =>
      if tok.isPrefixOf s && !tok.isEmpty then
        stripTokenGo tok fuel ((s.drop tok.length).dropWhile isWsChar)
      else c :: stripTokenGo tok fuel rest

def replaceFenceToken (tok : Str) (s : Str) : Str :=
  stripTokenGo tok (s.length + 1) s

/-- The cleaning step of `parseRecipeResponse` (lines 238-241): strip
markdown code fences, then trim. -/
def cleanResponse (s : Str) : Str :=
  trimStr (replaceFenceToken "```".data (replaceFenceToken "```json".data s))

/-- The slicing step (lines 244-249): between the first `[` and the last
`]` when both exist in that order, otherwise the whole cleaned text. -/
def extractJson (s : Str) : Str :=
  match s.findIdx? (fun c => c == '['),
      (s.reverse.findIdx? (fun c => c == ']')).map
        (fun i => s.length - 1 - i) with
  | some i, some j => if j > i then (s.drop i).take (j + 1 - i) else s
  | _, _ => s

/-- An inventory ingredient handed to the recipe pipeline. -/
structure Ingredient where
  name : Str
  qty : Int
  daysLeft : Int
deriving DecidableEq, Repr

/-- JS truthiness. -/
def truthy : JVal → Bool
  | .undef => false
  | .null => false
  | .bool b => b
  | .num q => decide (q ≠ 0)
  | .str s => !s.isEmpty
  | .arr _ => true
  | .obj _ => true

/-- Property lookup on an object's field list: the last bound value wins
(duplicate JSON keys overwrite),`undefined` when absent. -/
def objGet (fs : List (Str × JVal)) (k : Str) : JVal :=
  (((fs.reverse.find? (fun p => p.1 == k)).map Prod.snd).getD .undef)

/-- JS property read `v[k]`: throws on `null`/`undefined`, reads the field
on objects, yields `undefined` on every other (auto-boxed) value. -/
def jget (v : JVal) (k : Str) : Except Unit JVal :=
  match v with
  | .null => .error ()
  | .undef => .error ()
  | .obj fs => .ok (objGet fs k)
  | _ => .ok (.undef)

/-- JS strict equality of a value against a string literal. -/
def jvalEqStr (v : JVal) (w : String) : Bool :=
  match v with
  | .str s => s == w.data
  | _ => false

/-- JS `v || d`. -/
def jsOrJ (v d : JVal) : JVal := if truthy v then v else d

/-- Generated id `ai-recipe-{Date.now()}-{index}`. -/
def genAiId (now idx : Nat) : Str :=
  "ai-recipe-".data ++ (Nat.repr now).data ++ "-".data ++ (Nat.repr idx).data

/-- A normalized recipe record (the object literal of
`parseRecipeResponse`, lines 260-276; `matchScore` appears only after
matching). -/
structure NRecipe where
  id : JVal
  title : JVal
  difficulty : Str
  time : JVal
  priority : Str
  description : JVal
  usedIngredients : List JVal
  missingIngredients : List JVal
  instructions : List JVal
  tips : JVal
  source : Str
  matchedIngredients : List Ingredient
  matchScore : Option ℚ

/-- JS `Array.prototype.map` with a possibly-throwing callback. -/
def mapE {α β : Type} (f : α → Except Unit β) : List α → Except Unit (List β)
  | [] => .ok []
  | x :: xs => do
    let y ← f x
    let ys ← mapE f xs
    pure (y :: ys)

/-- The ternary `Array.isArray(recipe.ingredientsAvailable) ?
ingredientsAvailable.map(ing => ing.name || ing) :
Array.isArray(recipe.usedIngredients) ? usedIngredients : []`
(lines 268-270). -/
def usedIngredientsOf (v iav : JVal) : Except Unit (List JVal) :=
  match iav with
  | .arr ings => mapE (fun ing => do
      let n ← jget ing "name".data
      pure (jsOrJ n ing)) ings
  | _ => do
    let uv ← jget v "usedIngredients".data
    pure (match uv with | .arr l => l | _ => ([] : List JVal))

/-- Normalization of one decoded element (lines 260-276). Property reads on
`null` (a null element, or a null entry inside `ingredientsAvailable`)
throw, exactly as in JS. -/
def normalizeRecipe (now idx : Nat) (v : JVal) : Except Unit NRecipe := do
  let idv ← jget v "id".data
  let titlev ← jget v "title".data
  let diffv ← jget v "difficulty".data
  let timev ← jget v "time".data
  let priov ← jget v "priority".data
  let descv ← jget v "description".data
  let iav ← jget v "ingredientsAvailable".data
  let usedv ← usedIngredientsOf v iav
  let misv ← jget v "missingIngredients".data
  let instv ← jget v "instructions".data
  let tipsv ← jget v "tips".data
  pure
    { id := jsOrJ idv (.str (genAiId now idx))
      title := jsOrJ titlev (.str "Unavngiven opskrift".data)
      difficulty :=
        if jvalEqStr diffv "easy" then "easy".data
        else if jvalEqStr diffv "medium" then "medium".data
        else if jvalEqStr diffv "hard" then "hard".data
        else "medium".data
      time := jsOrJ timev (.str "30 min".data)
      priority :=
        if jvalEqStr priov "high" then "high".data
        else if jvalEqStr priov "medium" then "medium".data
        else if jvalEqStr priov "low" then "low".data
        else "medium".data
      description := jsOrJ descv (.str "Lækker hjemmelavet ret".data)
      usedIngredients := usedv
      missingIngredients := match misv with | .arr l => l | _ => []
      instructions := match instv with
        | .arr l => l
        | _ => [.str "Se online opskrift for instruktioner".data]
      tips := jsOrJ tipsv (.str [])
      source := "AI Generated".data
      matchedIngredients := []
      matchScore := none }

/-- `recipeArray.map((recipe, index) => ...)` over the decoded array. -/
def normalizeAll (now : Nat) : Nat → List JVal → Except Unit (List NRecipe)
  | _, [] => .ok []
  | idx, v :: vs => do
    let r ← normalizeRecipe now idx v
    let rs ← normalizeAll now (idx + 1) vs
    pure (r :: rs)

/-- `Array.isArray(recipes) ? recipes : [recipes]`. -/
def asRecipeArray (v : JVal) : List JVal :=
  match v with
  | .arr es => es
  | _ => [v]

/-- The error raised by `parseRecipeResponse`. -/
def parseErrMsg : Str := "Kunne ikke forstå AI svar. Prøv igen.".data

/-- `parseRecipeResponse` (aiRecipeService.js:233): clean, slice, decode,
wrap, normalize; the catch block converts any failure into the fixed
malformed-response error. -/
def parseRecipeResponse (now : Nat) (response : Str) :
    Except Str (List NRecipe) :=
  match jsonParse (extractJson (cleanResponse response)) with
  | none => .error parseErrMsg
  | some v =>
    match normalizeAll now 0 (asRecipeArray v) with
    | .ok rs => .ok rs
    | .error _ => .error parseErrMsg

/-! ## Fallback catalog, matcher and orchestrator (aiRecipeService.js) -/

/-- `getFallbackRecipes` (lines 286-334): two fixed recipes annotated with
up to 3 resp. 4 of the caller's ingredients; a non-array argument is
replaced by the empty list. -/
def getFallbackRecipes (ingredients : Option (List Ingredient)) :
    List NRecipe :=
  let safeIngredients := ingredients.getD []
  [{ id := .str "fallback-1".data
     title := .str "Hurtig Grøntsagsret".data
     difficulty := "easy".data
     time := .str "20 min".data
     priority := "high".data
     description :=
       .str "En nem og hurtig ret der bruger dine tilgængelige grøntsager.".data
     usedIngredients := (safeIngredients.take 3).map (fun ing => .str ing.name)
     missingIngredients := []
     instructions :=
       [.str "Vask og skær grøntsagerne i mindre stykker".data,
        .str "Varm olie op i en pande ved medium varme".data,
        .str "Tilsæt grøntsagerne og sautér i 5-7 minutter".data,
        .str "Krydre efter smag med salt og peber".data,
        .str "Server varmt".data]
     tips := .str "Tilføj krydderier eller krydderurter for ekstra smag".data
     source := "Fallback Recipe".data
     matchedIngredients := safeIngredients.take 3
     matchScore := none },
   { id := .str "fallback-2".data
     title := .str "Simpel Suppe".data
     difficulty := "easy".data
     time := .str "30 min".data
     priority := "medium".data
     description :=
       .str "En varmende suppe der kan bruge de fleste grøntsager.".data
     usedIngredients := (safeIngredients.take 4).map (fun ing => .str ing.name)
     missingIngredients := [.str "bouillon".data]
     instructions :=
       [.str "Skær alle grøntsager i tern".data,
        .str "Bring bouillon i kog i en gryde".data,
        .str "Tilsæt grøntsagerne og lad koge i 15-20 minutter".data,
        .str "Krydre efter smag".data,
        .str "Server med brød".data]
     tips := .str "Blend suppen for en cremet konsistens".data
     source := "Fallback Recipe".data
     matchedIngredients := safeIngredients.take 4
     matchScore := none }]

/-- `recipeIng.toLowerCase()`: throws on every non-string. -/
def jvalToLower : JVal → Except Unit Str
  | .str s => .ok (lowerStr s)
  | _ => .error ()

/-- JS `Array.prototype.some` with a possibly-throwing, short-circuited
predicate. -/
def someE {α : Type} (f : α → Except Unit Bool) :
    List α → Except Unit Bool
  | [] => .ok false
  | x :: xs => do
    let b ← f x
    if b then pure true else someE f xs

/-- JS `Array.prototype.filter` with a possibly-throwing predicate. -/
def filterE {α : Type} (f : α → Except Unit Bool) :
    List α → Except Unit (List α)
  | [] => .ok []
  | x :: xs => do
    let b ← f x
    let rest ← filterE f xs
    pure (if b then x :: rest else rest)

/-- `matchRecipesWithIngredients` (lines 339-354): annotate each recipe with
the inventory items overlapping (case-insensitive substring either way) one
of its used-ingredient names, plus the match score
`matched / max(usedCount, 1)`. -/
def matchRecipesWithIngredients (recipes : List NRecipe)
    (userIngredients : List Ingredient) : Except Unit (List NRecipe) :=
  mapE (fun recipe => do
    let matchedIngredients ← filterE (fun userIng =>
      someE (fun recipeIng => do
        let rl ← jvalToLower recipeIng
        pure (strIncludes (lowerStr userIng.name) rl ||
          strIncludes rl (lowerStr userIng.name))) recipe.usedIngredients)
      userIngredients
    pure { recipe with
      matchedIngredients := matchedIngredients
      matchScore := some ((matchedIngredients.length : ℚ) /
        max (recipe.usedIngredients.length : ℚ) 1) }) recipes

/-- The configuration surface read by the orchestrator
(src/config/aiConfig.js). -/
structure AIConfig where
  endpoint : Str
  apiKey : Str
  deploymentName : Str
  apiVersion : Str
  enableFallback : Bool
deriving DecidableEq, Repr

/-- The reference `AI_CONFIG` (aiConfig.js:11): all azure fields are
non-empty literals (the key literal itself is not reproduced here; only
non-emptiness is ever observed) and `enableFallback` is `true`. -/
def AI_CONFIG : AIConfig where
  endpoint := "https://phpe2-mfslft3c-eastus2.openai.azure.com/".data
  apiKey := "nonempty-api-key-literal".data
  deploymentName := "gpt-4.1-nano".data
  apiVersion := "2024-02-15-preview".data
  enableFallback := true

/-- `validateAIConfig` (aiConfig.js:45): all three azure identifiers must be
truthy. -/
def validateAIConfig (cfg : AIConfig) : Bool :=
  !cfg.endpoint.isEmpty && !cfg.apiKey.isEmpty && !cfg.deploymentName.isEmpty

/-- `isAIEnabled` (aiConfig.js:59). -/
def isAIEnabled (cfg : AIConfig) : Bool := validateAIConfig cfg

/-- `generateRecipeSuggestions` (aiRecipeService.js:12). The external HTTP
call is abstracted as its outcome `call` (an error covers timeout,
transport failure and non-2xx responses alike). The try-block either
returns, or falls into the catch, which serves the fallback catalog when
`enableFallback` holds and otherwise surfaces the fixed domain error. -/
def generateRecipeSuggestions (cfg : AIConfig) (call : Except Unit Str)
    (now : Nat) (ingredients : Option (List Ingredient)) :
    Except Str (List NRecipe) :=
  let tryBody : Except Str (List NRecipe) :=
    match ingredients with
    | none => .error "Ingen ingredienser tilgængelige".data
    | some ings =>
      if ings.isEmpty then .error "Ingen ingredienser tilgængelige".data
      else if !isAIEnabled cfg then .ok (getFallbackRecipes ingredients)
      else
        match call with
        | .error _ => .error "AI request failed".data
        | .ok response =>
          match parseRecipeResponse now response with
          | .error e => .error e
          | .ok aiRecipes =>
            match matchRecipesWithIngredients aiRecipes ings with
            | .error _ => .error "matching failed".data
            | .ok matched => .ok matched
  match tryBody with
  | .ok r => .ok r
  | .error _ =>
    if cfg.enableFallback then .ok (getFallbackRecipes ingredients)
    else .error "Kunne ikke generere opskriftsforslag. Prøv igen senere.".data

/-! ## C2: recipe response parsing -/

lemma exc_bind_ok {ε α β : Type} (a : α) (f : α → Except ε β) :
    (Except.ok a >>= f) = f a := rfl

lemma exc_bind_err {ε α β : Type} (e : ε) (f : α → Except ε β) :
    (Except.error e >>= f) = Except.error e := rfl

lemma jget_ok_of_ne (x : JVal) (k : Str) (h1 : x ≠ .null)
    (h2 : x ≠ .undef) : ∃ w, jget x k = .ok w := by
  cases x with
  | null => exact absurd rfl h1
  | undef => exact absurd rfl h2
  | bool b => exact ⟨_, rfl⟩
  | num q => exact ⟨_, rfl⟩
  | str s => exact ⟨_, rfl⟩
  | arr es => exact ⟨_, rfl⟩
  | obj fs => exact ⟨_, rfl⟩

lemma mapE_name_ok (ings : List JVal)
    (h : ∀ x ∈ ings, x ≠ .null ∧ x ≠ .undef) :
    ∃ l, mapE (fun ing => do
      let n ← jget ing "name".data
      pure (jsOrJ n ing)) ings = .ok l := by
  induction ings with
  | nil => exact ⟨[], rfl⟩
  | cons x xs ih =>
    obtain ⟨hx1, hx2⟩ := h x (List.mem_cons_self _ _)
    obtain ⟨w, hw⟩ := jget_ok_of_ne x "name".data hx1 hx2
    obtain ⟨l, hl⟩ := ih (fun y hy => h y (List.mem_cons_of_mem _ hy))
    refine ⟨jsOrJ w x :: l, ?_⟩
    simp only [mapE, hw, hl, exc_bind_ok]
    rfl

lemma usedIngredientsOf_obj_ok (fs : List (Str × JVal))
    (hia : ∀ ings, objGet fs "ingredientsAvailable".data = .arr ings →
      ∀ x ∈ ings, x ≠ .null ∧ x ≠ .undef) :
    ∃ l, usedIngredientsOf (.obj fs)
      (objGet fs "ingredientsAvailable".data) = .ok l := by
  cases hv : objGet fs "ingredientsAvailable".data with
  | arr ings =>
    obtain ⟨l, hl⟩ := mapE_name_ok ings (hia ings hv)
    exact ⟨l, by simp only [usedIngredientsOf, hl]⟩
  | null => exact ⟨_, rfl⟩
  | undef => exact ⟨_, rfl⟩
  | bool b => exact ⟨_, rfl⟩
  | num q => exact ⟨_, rfl⟩
  | str s => exact ⟨_, rfl⟩
  | obj fs' => exact ⟨_, rfl⟩

/-- The scenario input of the spec. -/
def c2scenario : Str := "blah [\x7b\"title\":\"X\"\x7d] blah".data

/-- The recipe with every field defaulted except the given title. -/
def defaultedRecipe (now idx : Nat) (title : JVal) : NRecipe where
  id := .str (genAiId now idx)
  title := title
  difficulty := "medium".data
  time := .str "30 min".data
  priority := "medium".data
  description := .str "Lækker hjemmelavet ret".data
  usedIngredients := []
  missingIngredients := []
  instructions := [.str "Se online opskrift for instruktioner".data]
  tips := .str []
  source := "AI Generated".data
  matchedIngredients := []
  matchScore := none

/-- C2 (amended): the parser strips fences, slices between the first `[`
and last `]`, decodes JSON, wraps a bare object, and normalizes each
element with per-field defaults; normalization succeeds on any object
whose `ingredientsAvailable` entries are not null, difficulty/priority are
always validated into their enums, and the parse fails exactly on total
JSON failure or a null dereference during normalization. The scenario
input yields one fully defaulted recipe titled `X`. -/
theorem parse_recipe_response_C2 :
    (∀ (now idx : Nat) (fs : List (Str × JVal)),
      (∀ ings, objGet fs "ingredientsAvailable".data = .arr ings →
        ∀ x ∈ ings, x ≠ .null ∧ x ≠ .undef) →
      (normalizeRecipe now idx (.obj fs)).isOk = true) ∧
    (∀ now idx : Nat,
      normalizeRecipe now idx (.obj []) =
        .ok (defaultedRecipe now idx (.str "Unavngiven opskrift".data))) ∧
    (∀ (now idx : Nat) (v : JVal) (r : NRecipe),
      normalizeRecipe now idx v = .ok r →
      (r.difficulty = "easy".data ∨ r.difficulty = "medium".data ∨
        r.difficulty = "hard".data) ∧
      (r.priority = "high".data ∨ r.priority = "medium".data ∨
        r.priority = "low".data)) ∧
    (∀ (now : Nat) (s : Str) (fs : List (Str × JVal)),
      jsonParse (extractJson (cleanResponse s)) = some (.obj fs) →
      parseRecipeResponse now s =
        (match normalizeAll now 0 [JVal.obj fs] with
          | .ok rs => .ok rs
          | .error _ => .error parseErrMsg)) ∧
    (∀ (now : Nat) (s : Str),
      parseRecipeResponse now s = .error parseErrMsg ↔
        (jsonParse (extractJson (cleanResponse s)) = none ∨
          ∃ v, jsonParse (extractJson (cleanResponse s)) = some v ∧
            normalizeAll now 0 (asRecipeArray v) = .error ())) ∧
    parseRecipeResponse 0 c2scenario =
      .ok [defaultedRecipe 0 0 (.str "X".data)] := by
  refine ⟨?_, ?_, ?_, ?_, ?_, ?_⟩
  · intro now idx fs hia
    obtain ⟨l, hl⟩ := usedIngredientsOf_obj_ok fs hia
    simp only [normalizeRecipe, jget, exc_bind_ok, hl]
    rfl
  · intro now idx
    rfl
  · intro now idx v r h
    cases v with
    | null => exact absurd h (by simp [normalizeRecipe, jget, exc_bind_err])
    | undef => exact absurd h (by simp [normalizeRecipe, jget, exc_bind_err])
    | obj fs =>
      simp only [normalizeRecipe, jget, exc_bind_ok] at h
      cases husd : usedIngredientsOf (.obj fs)
          (objGet fs "ingredientsAvailable".data) with
      | error e =>
        rw [husd, exc_bind_err] at h
        exact absurd h (by simp)
      | ok l =>
        rw [husd, exc_bind_ok] at h
        obtain rfl := Except.ok.inj h
        constructor
        · dsimp only
          split
          · simp
          · split
            · simp
            · split <;> simp
        · dsimp only
          split
          · simp
          · split
            · simp
            · split <;> simp
    | bool b =>
      simp only [normalizeRecipe, jget, usedIngredientsOf,
        exc_bind_ok] at h
      obtain rfl := Except.ok.inj h
      exact ⟨by simp [jvalEqStr], by simp [jvalEqStr]⟩
    | num q =>
      simp only [normalizeRecipe, jget, usedIngredientsOf,
        exc_bind_ok] at h
      obtain rfl := Except.ok.inj h
      exact ⟨by simp [jvalEqStr], by simp [jvalEqStr]⟩
    | str s =>
      simp only [normalizeRecipe, jget, usedIngredientsOf,
        exc_bind_ok] at h
      obtain rfl := Except.ok.inj h
      exact ⟨by simp [jvalEqStr], by simp [jvalEqStr]⟩
    | arr es =>
      simp only [normalizeRecipe, jget, usedIngredientsOf,
        exc_bind_ok] at h
      obtain rfl := Except.ok.inj h
      exact ⟨by simp [jvalEqStr], by simp [jvalEqStr]⟩
  · intro now s fs h
    unfold parseRecipeResponse
    rw [h]
    rfl
  · intro now s
    unfold parseRecipeResponse
    cases hjp : jsonParse (extractJson (cleanResponse s)) with
    | none => simp
    | some v =>
      show (match normalizeAll now 0 (asRecipeArray v) with
        | .ok rs => (.ok rs : Except Str (List NRecipe))
        | .error _ => .error parseErrMsg) = .error parseErrMsg ↔ _
      cases hna : normalizeAll now 0 (asRecipeArray v) with
      | ok rs =>
        constructor
        · intro hcontra
          exact absurd hcontra (by simp)
        · rintro (hcontra | ⟨v', hv', herr⟩)
          · exact absurd hcontra (by simp)
          · obtain rfl := Option.some.inj hv'
            rw [hna] at herr
            exact absurd herr (by simp)
      | error u =>
        cases u
        constructor
        · intro _
          exact Or.inr ⟨v, rfl, hna⟩
        · intro _
          rfl
  · rfl

theorem parse_recipe_response_C2_witness :
    (normalizeRecipe 0 0 (JVal.obj [])).isOk = true :=
  parse_recipe_response_C2.1 0 0 []
    (fun ings hcontra => absurd hcontra (by simp [objGet]))

/-- C2 counterexample: a single malformed field — a null entry inside
`ingredientsAvailable` — makes the whole parse fail even though the input
is structurally valid JSON, refuting "only total JSON-structure failure
raises the malformed-response error". -/
theorem parse_malformed_field_C2_counterexample :
    parseRecipeResponse 0 "[\x7b\"ingredientsAvailable\":[null]\x7d]".data =
      .error parseErrMsg ∧
    (jsonParse "[\x7b\"ingredientsAvailable\":[null]\x7d]".data).isSome =
      true :=
  ⟨rfl, rfl⟩

/-! ## C3 and C9: orchestrator failure policy -/

/-- C3: with a non-empty ingredient list, the orchestrator serves the
fallback catalog whenever generation is not configured, or whenever it is
configured but the call or the parse fails and fallback is enabled; with
fallback disabled, a failing call or parse surfaces the fixed domain error
and no partial result. -/
theorem orchestrator_failure_policy_C3 (cfg : AIConfig)
    (call : Except Unit Str) (now : Nat) (ings : List Ingredient)
    (hne : ings ≠ []) :
    (isAIEnabled cfg = false →
      generateRecipeSuggestions cfg call now (some ings) =
        .ok (getFallbackRecipes (some ings))) ∧
    (isAIEnabled cfg = true → cfg.enableFallback = true →
      (call = .error () ∨
        ∃ resp e, call = .ok resp ∧ parseRecipeResponse now resp = .error e) →
      generateRecipeSuggestions cfg call now (some ings) =
        .ok (getFallbackRecipes (some ings))) ∧
    (isAIEnabled cfg = true → cfg.enableFallback = false →
      (call = .error () ∨
        ∃ resp e, call = .ok resp ∧ parseRecipeResponse now resp = .error e) →
      generateRecipeSuggestions cfg call now (some ings) =
        .error "Kunne ikke generere opskriftsforslag. Prøv igen senere.".data) := by
  have hemp : ings.isEmpty = false := by
    cases ings with
    | nil => exact absurd rfl hne
    | cons a l => rfl
  refine ⟨?_, ?_, ?_⟩
  · intro hoff
    unfold generateRecipeSuggestions
    simp only [hemp, hoff, Bool.not_false, if_false, if_true,
      Bool.false_eq_true]
  · intro hon hfb hfail
    unfold generateRecipeSuggestions
    simp only [hemp, hon, Bool.not_true, Bool.false_eq_true, if_false]
    rcases hfail with rfl | ⟨resp, e, rfl, hpe⟩
    · simp only [hfb, if_true]
    · simp only [hpe, hfb, if_true]
  · intro hon hfb hfail
    unfold generateRecipeSuggestions
    simp only [hemp, hon, Bool.not_true, Bool.false_eq_true, if_false]
    rcases hfail with rfl | ⟨resp, e, rfl, hpe⟩
    · simp only [hfb, if_false, Bool.false_eq_true]
    · simp only [hpe, hfb, if_false, Bool.false_eq_true]

/-- A non-empty concrete inventory. -/
def c3ings : List Ingredient := [⟨"tomat".data, 2, 1⟩]

/-- Reference config with the generation endpoint removed. -/
def c3cfgOff : AIConfig := { AI_CONFIG with endpoint := [] }

/-- Reference config with fallback disabled. -/
def c3cfgNoFb : AIConfig := { AI_CONFIG with enableFallback := false }

theorem orchestrator_failure_policy_C3_witness :
    generateRecipeSuggestions c3cfgOff (.error ()) 0 (some c3ings) =
      .ok (getFallbackRecipes (some c3ings)) ∧
    generateRecipeSuggestions AI_CONFIG (.error ()) 0 (some c3ings) =
      .ok (getFallbackRecipes (some c3ings)) ∧
    generateRecipeSuggestions c3cfgNoFb (.error ()) 0 (some c3ings) =
      .error "Kunne ikke generere opskriftsforslag. Prøv igen senere.".data :=
  ⟨(orchestrator_failure_policy_C3 c3cfgOff (.error ()) 0 c3ings
      (by decide)).1 (by decide),
   (orchestrator_failure_policy_C3 AI_CONFIG (.error ()) 0 c3ings
      (by decide)).2.1 (by decide) rfl (Or.inl rfl),
   (orchestrator_failure_policy_C3 c3cfgNoFb (.error ()) 0 c3ings
      (by decide)).2.2 (by decide) rfl (Or.inl rfl)⟩

/-- C9: with fallback enabled, an empty or missing ingredient list does not
surface the internal "no ingredients" error: the throw lands in the same
catch that serves generation failures, so the call returns the fallback
catalog, whose used/matched ingredient lists are then empty. -/
theorem empty_ingredients_fallback_C9 (cfg : AIConfig)
    (call : Except Unit Str) (now : Nat)
    (ings : Option (List Ingredient)) (hfb : cfg.enableFallback = true)
    (hempty : ings = none ∨ ings = some []) :
    generateRecipeSuggestions cfg call now ings =
      .ok (getFallbackRecipes ings) ∧
    ∀ r ∈ getFallbackRecipes ings,
      r.usedIngredients = [] ∧ r.matchedIngredients = [] := by
  have hsafe : ings.getD [] = [] := by
    rcases hempty with rfl | rfl <;> rfl
  constructor
  · rcases hempty with rfl | rfl
    · unfold generateRecipeSuggestions
      simp only [hfb, if_true]
    · unfold generateRecipeSuggestions
      simp only [List.isEmpty_nil, if_true, hfb]
  · intro r hr
    unfold getFallbackRecipes at hr
    rw [hsafe] at hr
    rcases List.mem_cons.mp hr with rfl | hr2
    · exact ⟨rfl, rfl⟩
    · rcases List.mem_cons.mp hr2 with rfl | hr3
      · exact ⟨rfl, rfl⟩
      · simp at hr3

theorem empty_ingredients_fallback_C9_witness :
    generateRecipeSuggestions AI_CONFIG (.error ()) 0 none =
      .ok (getFallbackRecipes none) ∧
    ∀ r ∈ getFallbackRecipes none,
      r.usedIngredients = [] ∧ r.matchedIngredients = [] :=
  empty_ingredients_fallback_C9 AI_CONFIG (.error ()) 0 none rfl (Or.inl rfl)

/-! ## C8: recipe matching -/

/-- Is the value a JS string? -/
def isStrJ : JVal → Bool
  | .str _ => true
  | _ => false

/-- Pure form of the matcher's overlap test for a string-valued used
ingredient: case-insensitive substring containment in either direction. -/
def ingOverlapB (u : Ingredient) (ri : JVal) : Bool :=
  match ri with
  | .str s => strIncludes (lowerStr u.name) (lowerStr s) ||
      strIncludes (lowerStr s) (lowerStr u.name)
  | _ => false

lemma someE_overlap (u : Ingredient) (used : List JVal)
    (h : used.all isStrJ = true) :
    someE (fun recipeIng => do
      let rl ← jvalToLower recipeIng
      pure (strIncludes (lowerStr u.name) rl ||
        strIncludes rl (lowerStr u.name))) used =
      .ok (used.any (ingOverlapB u)) := by
  induction used with
  | nil => rfl
  | cons x xs ih =>
    rw [List.all_cons, Bool.and_eq_true] at h
    obtain ⟨hx, hxs⟩ := h
    cases x with
    | str s =>
      show (if (strIncludes (lowerStr u.name) (lowerStr s) ||
            strIncludes (lowerStr s) (lowerStr u.name)) = true
          then pure true
          else someE (fun recipeIng => do
            let rl ← jvalToLower recipeIng
            pure (strIncludes (lowerStr u.name) rl ||
              strIncludes rl (lowerStr u.name))) xs) =
        .ok (ingOverlapB u (.str s) || xs.any (ingOverlapB u))
      by_cases hb : (strIncludes (lowerStr u.name) (lowerStr s) ||
          strIncludes (lowerStr s) (lowerStr u.name)) = true
      · have hio : ingOverlapB u (.str s) = true := hb
        rw [if_pos hb, hio, Bool.true_or]
        rfl
      · rw [Bool.not_eq_true] at hb
        have hio : ingOverlapB u (.str s) = false := hb
        rw [hio, Bool.false_or, if_neg (by simp [hb])]
        exact ih hxs
    | null => simp [isStrJ] at hx
    | undef => simp [isStrJ] at hx
    | bool b => simp [isStrJ] at hx
    | num q => simp [isStrJ] at hx
    | arr es => simp [isStrJ] at hx
    | obj fs => simp [isStrJ] at hx

lemma filterE_overlap (used : List JVal) (h : used.all isStrJ = true)
    (users : List Ingredient) :
    filterE (fun userIng => someE (fun recipeIng => do
      let rl ← jvalToLower recipeIng
      pure (strIncludes (lowerStr userIng.name) rl ||
        strIncludes rl (lowerStr userIng.name))) used) users =
      .ok (users.filter (fun u => used.any (ingOverlapB u))) := by
  induction users with
  | nil => rfl
  | cons u us ih =>
    simp only [filterE, someE_overlap u used h, exc_bind_ok, ih,
      List.filter_cons]
    by_cases hb : used.any (ingOverlapB u) = true
    · simp only [hb, if_true]
      rfl
    · rw [Bool.not_eq_true] at hb
      simp only [hb, Bool.false_eq_true, if_false]
      rfl

/-- The annotation `matchRecipesWithIngredients` adds per recipe. -/
def annotateRecipe (users : List Ingredient) (r : NRecipe) : NRecipe :=
  { r with
    matchedIngredients :=
      users.filter (fun u => r.usedIngredients.any (ingOverlapB u))
    matchScore := some
      (((users.filter (fun u => r.usedIngredients.any (ingOverlapB u))).length : ℚ) /
        max (r.usedIngredients.length : ℚ) 1) }

lemma matchRecipes_ok (users : List Ingredient) :
    ∀ recipes : List NRecipe,
      (∀ r ∈ recipes, r.usedIngredients.all isStrJ = true) →
      matchRecipesWithIngredients recipes users =
        .ok (recipes.map (annotateRecipe users)) := by
  intro recipes
  induction recipes with
  | nil => intro _; rfl
  | cons r rs ih =>
    intro h
    have hr := h r (List.mem_cons_self _ _)
    have hrs := ih (fun x hx => h x (List.mem_cons_of_mem _ hx))
    unfold matchRecipesWithIngredients at hrs ⊢
    simp only [mapE, filterE_overlap r.usedIngredients hr users,
      exc_bind_ok, hrs, List.map_cons]
    rfl

/-- C8: with string-valued used-ingredient names, the matcher annotates each
recipe — in place, preserving list order and every other field — with
exactly the inventory items whose name overlaps (case-insensitive substring
in either direction, `strIncludes` being substring containment) one of the
recipe's used-ingredient names, and the score matched / max(count, 1). -/
theorem recipe_matching_C8 (recipes : List NRecipe)
    (users : List Ingredient)
    (h : ∀ r ∈ recipes, r.usedIngredients.all isStrJ = true) :
    matchRecipesWithIngredients recipes users =
      .ok (recipes.map (annotateRecipe users)) ∧
    (∀ r ∈ recipes, ∀ u : Ingredient,
      u ∈ users.filter (fun u' => r.usedIngredients.any (ingOverlapB u')) ↔
        u ∈ users ∧ r.usedIngredients.any (ingOverlapB u) = true) ∧
    (∀ needle hay : Str, strIncludes needle hay = true ↔ needle <:+: hay) := by
  refine ⟨matchRecipes_ok users recipes h, ?_, strIncludes_iff_infix⟩
  intro r _ u
  exact List.mem_filter

/-- A recipe whose used ingredients are the strings `tomat` and `løg`. -/
def c8recipe : NRecipe where
  id := .str "r".data
  title := .str "Tomatsuppe".data
  difficulty := "easy".data
  time := .str "20 min".data
  priority := "high".data
  description := .str "suppe".data
  usedIngredients := [.str "tomat".data, .str "løg".data]
  missingIngredients := []
  instructions := [.str "kog".data]
  tips := .str []
  source := "AI Generated".data
  matchedIngredients := []
  matchScore := none

/-- An inventory with one overlapping and one unrelated item. -/
def c8users : List Ingredient := [⟨"Tomater".data, 2, 1⟩, ⟨"agurk".data, 1, 3⟩]

theorem recipe_matching_C8_witness :
    matchRecipesWithIngredients [c8recipe] c8users =
      .ok ([c8recipe].map (annotateRecipe c8users)) ∧
    (∀ r ∈ [c8recipe], ∀ u : Ingredient,
      u ∈ c8users.filter (fun u' => r.usedIngredients.any (ingOverlapB u')) ↔
        u ∈ c8users ∧ r.usedIngredients.any (ingOverlapB u) = true) ∧
    (∀ needle hay : Str, strIncludes needle hay = true ↔ needle <:+: hay) :=
  recipe_matching_C8 [c8recipe] c8users
    (by intro r hr; rcases List.mem_singleton.mp hr with rfl; rfl)

/-! ## C7: grouping and ordering of the shopping list -/

/-- `Array.prototype.sort` modelled as a comparator-driven insertion sort
(the ES specification promises a sorted permutation for a consistent
comparator; tie order is irrelevant to every property claimed). -/
def insertLe {α : Type} (le : α → α → Bool) (a : α) : List α → List α
  | [] => [a]
  | b :: bs => if le a b then a :: b :: bs else b :: insertLe le a bs

def sortJS {α : Type} (le : α → α → Bool) : List α → List α
  | [] => []
  | a :: as => insertLe le a (sortJS le as)

lemma insertLe_perm {α : Type} (le : α → α → Bool) (a : α) (l : List α) :
    (insertLe le a l).Perm (a :: l) := by
  induction l with
  | nil => exact List.Perm.refl _
  | cons b bs ih =>
    unfold insertLe
    by_cases h : le a b
    · rw [if_pos h]
    · rw [if_neg h]
      exact (ih.cons b).trans (List.Perm.swap a b bs)

lemma sortJS_perm {α : Type} (le : α → α → Bool) (l : List α) :
    (sortJS le l).Perm l := by
  induction l with
  | nil => exact List.Perm.refl _
  | cons a as ih =>
    exact (insertLe_perm le a (sortJS le as)).trans (ih.cons a)

lemma mem_insertLe {α : Type} {le : α → α → Bool} {a x : α} {l : List α} :
    x ∈ insertLe le a l ↔ x = a ∨ x ∈ l := by
  rw [(insertLe_perm le a l).mem_iff, List.mem_cons]

lemma insertLe_pairwise {α : Type} {le : α → α → Bool} {a : α}
    {l : List α} (hpw : l.Pairwise (le · ·))
    (htot : ∀ b ∈ l, le a b ∨ le b a)
    (htr : ∀ b ∈ l, ∀ c ∈ l, le a b → le b c → le a c) :
    (insertLe le a l).Pairwise (le · ·) := by
  induction l with
  | nil => simp [insertLe]
  | cons b bs ih =>
    rw [List.pairwise_cons] at hpw
    obtain ⟨hb, hbs⟩ := hpw
    unfold insertLe
    by_cases h : le a b
    · rw [if_pos h]
      refine List.pairwise_cons.mpr ⟨?_, List.pairwise_cons.mpr ⟨hb, hbs⟩⟩
      intro x hx
      rcases List.mem_cons.mp hx with rfl | hx'
      · exact h
      · exact htr b (List.mem_cons_self _ _) x (List.mem_cons_of_mem _ hx')
          h (hb x hx')
    · rw [if_neg h]
      refine List.pairwise_cons.mpr ⟨?_, ?_⟩
      · intro x hx
        rcases mem_insertLe.mp hx with rfl | hx'
        · rcases htot b (List.mem_cons_self _ _) with hab | hba
          · exact absurd hab h
          · exact hba
        · exact hb x hx'
      · exact ih hbs
          (fun x hx => htot x (List.mem_cons_of_mem _ hx))
          (fun x hx y hy => htr x (List.mem_cons_of_mem _ hx)
            y (List.mem_cons_of_mem _ hy))

lemma sortJS_pairwise {α : Type} {le : α → α → Bool} {l : List α}
    (htot : ∀ x ∈ l, ∀ y ∈ l, le x y ∨ le y x)
    (htr : ∀ x ∈ l, ∀ y ∈ l, ∀ z ∈ l, le x y → le y z → le x z) :
    (sortJS le l).Pairwise (le · ·) := by
  induction l with
  | nil => simp [sortJS]
  | cons a as ih =>
    have hmem : ∀ x ∈ sortJS le as, x ∈ as :=
      fun x hx => (sortJS_perm le as).mem_iff.mp hx
    exact insertLe_pairwise
      (ih (fun x hx y hy => htot x (List.mem_cons_of_mem _ hx)
            y (List.mem_cons_of_mem _ hy))
          (fun x hx y hy z hz => htr x (List.mem_cons_of_mem _ hx)
            y (List.mem_cons_of_mem _ hy) z (List.mem_cons_of_mem _ hz)))
      (fun b hb => htot a (List.mem_cons_self _ _)
        b (List.mem_cons_of_mem _ (hmem b hb)))
      (fun b hb c hc hab hbc => htr a (List.mem_cons_self _ _)
        b (List.mem_cons_of_mem _ (hmem b hb))
        c (List.mem_cons_of_mem _ (hmem c hc)) hab hbc)

/-- Codepoint-wise three-way string comparison; locale collation of
`localeCompare` is modelled as this comparison on lowercased strings. -/
def strCmp : Str → Str → Int
  | [], [] => 0
  | [], _ :: _ => -1
  | _ :: _, [] => 1
  | a :: as, b :: bs =>
    if a.toNat < b.toNat then -1
    else if b.toNat < a.toNat then 1
    else strCmp as bs

lemma strCmp_neg : ∀ x y : Str, strCmp y x = -strCmp x y := by
  intro x
  induction x with
  | nil =>
    intro y
    cases y with
    | nil => rfl
    | cons b bs => rfl
  | cons a as ih =>
    intro y
    cases y with
    | nil => rfl
    | cons b bs =>
      unfold strCmp
      split_ifs <;> first | omega | exact ih bs

lemma strCmp_trans : ∀ x y z : Str,
    strCmp x y ≤ 0 → strCmp y z ≤ 0 → strCmp x z ≤ 0 := by
  intro x
  induction x with
  | nil =>
    intro y z _ _
    cases z with
    | nil => simp [strCmp]
    | cons c cs => simp [strCmp]
  | cons a as ih =>
    intro y z h1 h2
    cases y with
    | nil => simp [strCmp] at h1
    | cons b bs =>
      cases z with
      | nil => simp [strCmp] at h2
      | cons c cs =>
        unfold strCmp at h1 h2 ⊢
        split_ifs at h1 h2 ⊢ <;>
          first
          | omega
          | exact ih bs cs h1 h2

/-- The within-group comparator of `groupShoppingListByCategory`
(lines 251-263): checked status, then descending priority, then name
(`localeCompare` modelled case-insensitively); a `NaN` produced by an
undefined priority makes `Array.sort` treat the pair as equal. -/
def cmpItems (a b : SLItem) : Int :=
  if a.isChecked ≠ b.isChecked then (if a.isChecked then 1 else -1)
  else
    match prioLookup b.priority, prioLookup a.priority with
    | some vb, some va =>
      if vb ≠ va then (vb : Int) - (va : Int)
      else strCmp (lowerStr a.name) (lowerStr b.name)
    | _, _ => 0

def itemLe (a b : SLItem) : Bool := decide (cmpItems a b ≤ 0)

/-- A shopping-list display group. -/
structure SLGroup where
  name : Str
  icon : Str
  items : List SLItem
deriving DecidableEq, Repr

/-- Number of unchecked items of a group. -/
def uncheckedCount (g : SLGroup) : Nat :=
  (g.items.filter (fun item => !item.isChecked)).length

/-- The group comparator (lines 264-269): descending unchecked count. -/
def cmpGroups (g1 g2 : SLGroup) : Int :=
  (uncheckedCount g2 : Int) - (uncheckedCount g1 : Int)

def groupLe (g1 g2 : SLGroup) : Bool := decide (cmpGroups g1 g2 ≤ 0)

/-- `item.category || 'Andre'`. -/
def groupKeyOf (e : SLItem) : Str :=
  if e.category = [] then "Andre".data else e.category

/-- One step of the `items.forEach` accumulation into `grouped`
(lines 236-246): append to the existing group of the key, or start a new
group whose icon comes from this first item. -/
def pushToGroups (gs : List SLGroup) (e : SLItem) : List SLGroup :=
  if gs.any (fun g => g.name == groupKeyOf e) then
    gs.map (fun g =>
      if g.name = groupKeyOf e then { g with items := g.items ++ [e] }
      else g)
  else
    gs ++ [⟨groupKeyOf e,
      if e.categoryIcon = [] then "🛒".data else e.categoryIcon, [e]⟩]

/-- `groupShoppingListByCategory` (shoppingListService.js:233): partition by
category, sort items within each group, then sort groups by descending
unchecked count. -/
def groupShoppingListByCategory (items : List SLItem) : List SLGroup :=
  let grouped := items.foldl pushToGroups []
  let sortedCategories := grouped.map (fun g =>
    { g with items := sortJS itemLe g.items })
  sortJS groupLe sortedCategories

/-- The claimed within-group order: unchecked before checked, then
descending priority, then ascending case-insensitive name. -/
def lexLe (a b : SLItem) : Prop :=
  (a.isChecked = false ∧ b.isChecked = true) ∨
  (a.isChecked = b.isChecked ∧ prioNat b.priority < prioNat a.priority) ∨
  (a.isChecked = b.isChecked ∧ prioNat a.priority = prioNat b.priority ∧
    strCmp (lowerStr a.name) (lowerStr b.name) ≤ 0)

lemma cmpItems_le_iff {a b : SLItem} {pa pb : Priority}
    (ha : a.priority = some pa) (hb : b.priority = some pb) :
    cmpItems a b ≤ 0 ↔ lexLe a b := by
  unfold cmpItems lexLe prioLookup prioNat
  simp only [ha, hb, Option.map_some', Option.getD_some]
  by_cases hc : a.isChecked ≠ b.isChecked
  · rw [if_pos hc]
    cases hac : a.isChecked <;> cases hbc : b.isChecked <;> simp_all
  · rw [if_neg hc]
    push_neg at hc
    by_cases hv : prioVal pb ≠ prioVal pa
    · rw [if_pos hv]
      constructor
      · intro hle
        exact Or.inr (Or.inl ⟨hc, by omega⟩)
      · rintro (⟨h1, h2⟩ | ⟨_, h2⟩ | ⟨_, h2, _⟩)
        · rw [h1, h2] at hc; simp at hc
        · omega
        · omega
    · rw [if_neg hv]
      push_neg at hv
      constructor
      · intro hle
        exact Or.inr (Or.inr ⟨hc, by omega, hle⟩)
      · rintro (⟨h1, h2⟩ | ⟨_, h2⟩ | ⟨_, _, h3⟩)
        · rw [h1, h2] at hc; simp at hc
        · omega
        · exact h3

lemma lexLe_total {a b : SLItem} :
    lexLe a b ∨ lexLe b a := by
  unfold lexLe
  by_cases hc : a.isChecked = b.isChecked
  · by_cases hv : prioNat a.priority = prioNat b.priority
    · have := strCmp_neg (lowerStr a.name) (lowerStr b.name)
      by_cases hs : strCmp (lowerStr a.name) (lowerStr b.name) ≤ 0
      · exact Or.inl (Or.inr (Or.inr ⟨hc, hv, hs⟩))
      · exact Or.inr (Or.inr (Or.inr ⟨hc.symm, hv.symm, by omega⟩))
    · by_cases hlt : prioNat b.priority < prioNat a.priority
      · exact Or.inl (Or.inr (Or.inl ⟨hc, hlt⟩))
      · exact Or.inr (Or.inr (Or.inl ⟨hc.symm, by omega⟩))
  · cases hac : a.isChecked <;> cases hbc : b.isChecked
    · exact absurd (hac.trans hbc.symm) hc
    · exact Or.inl (Or.inl ⟨rfl, rfl⟩)
    · exact Or.inr (Or.inl ⟨rfl, rfl⟩)
    · exact absurd (hac.trans hbc.symm) hc

lemma lexLe_trans {a b c : SLItem} (h1 : lexLe a b) (h2 : lexLe b c) :
    lexLe a c := by
  unfold lexLe at h1 h2 ⊢
  have hst := strCmp_trans (lowerStr a.name) (lowerStr b.name)
    (lowerStr c.name)
  rcases h1 with ⟨ha1, hb1⟩ | ⟨hc1, hp1⟩ | ⟨hc1, hp1, hn1⟩ <;>
    rcases h2 with ⟨ha2, hb2⟩ | ⟨hc2, hp2⟩ | ⟨hc2, hp2, hn2⟩
  · rw [hb1] at ha2; exact absurd ha2 (by simp)
  · exact Or.inl ⟨ha1, hb1 ▸ hc2.symm⟩
  · exact Or.inl ⟨ha1, hb1 ▸ hc2.symm⟩
  · exact Or.inl ⟨hc1 ▸ ha2, hb2⟩
  · exact Or.inr (Or.inl ⟨hc1.trans hc2, by omega⟩)
  · exact Or.inr (Or.inl ⟨hc1.trans hc2, by omega⟩)
  · exact Or.inl ⟨hc1 ▸ ha2, hb2⟩
  · exact Or.inr (Or.inl ⟨hc1.trans hc2, by omega⟩)
  · exact Or.inr (Or.inr ⟨hc1.trans hc2, hp1.trans hp2, hst hn1 hn2⟩)

lemma map_update_eq_self (gs : List SLGroup) (k : Str) (e : SLItem)
    (h : ∀ g ∈ gs, g.name ≠ k) :
    gs.map (fun g =>
      if g.name = k then { g with items := g.items ++ [e] } else g) = gs := by
  induction gs with
  | nil => rfl
  | cons g rest ih =>
    rw [List.map_cons, if_neg (h g (List.mem_cons_self _ _)),
      ih (fun x hx => h x (List.mem_cons_of_mem _ hx))]

lemma flatten_map_update (gs : List SLGroup) (k : Str) (e : SLItem)
    (hnd : (gs.map SLGroup.name).Nodup) (hmem : ∃ g ∈ gs, g.name = k) :
    (((gs.map (fun g =>
        if g.name = k then { g with items := g.items ++ [e] } else g)).map
      SLGroup.items).flatten).Perm
      ((gs.map SLGroup.items).flatten ++ [e]) := by
  induction gs with
  | nil => simp at hmem
  | cons g rest ih =>
    simp only [List.map_cons] at hnd ⊢
    rw [List.nodup_cons] at hnd
    obtain ⟨hgn, hrest⟩ := hnd
    by_cases hg : g.name = k
    · rw [if_pos hg]
      have hnone : ∀ x ∈ rest, x.name ≠ k := by
        intro x hx hxk
        exact hgn (by
          rw [hg, ← hxk]
          exact List.mem_map_of_mem SLGroup.name hx)
      rw [map_update_eq_self rest k e hnone]
      simp only [List.map_cons, List.flatten_cons]
      have h2 : (g.items ++ [e]) ++ (rest.map SLGroup.items).flatten =
          g.items ++ ([e] ++ (rest.map SLGroup.items).flatten) :=
        List.append_assoc _ _ _
      have h3 : (g.items ++ (rest.map SLGroup.items).flatten) ++ [e] =
          g.items ++ ((rest.map SLGroup.items).flatten ++ [e]) :=
        List.append_assoc _ _ _
      rw [h2, h3]
      exact List.Perm.append_left g.items List.perm_append_comm
    · rw [if_neg hg]
      obtain ⟨g', hg', hk'⟩ := hmem
      rcases List.mem_cons.mp hg' with rfl | hgr
      · exact absurd hk' hg
      · simp only [List.map_cons, List.flatten_cons]
        have hih := ih hrest ⟨g', hgr, hk'⟩
        have hassoc : (g.items ++ (rest.map SLGroup.items).flatten) ++ [e] =
            g.items ++ ((rest.map SLGroup.items).flatten ++ [e]) :=
          List.append_assoc _ _ _
        rw [hassoc]
        exact List.Perm.append_left g.items hih

/-- Invariant of the grouping accumulator. -/
def GroupedInv (gs : List SLGroup) : Prop :=
  (gs.map SLGroup.name).Nodup ∧
  ∀ g ∈ gs, ∀ x ∈ g.items, groupKeyOf x = g.name

lemma pushToGroups_inv (gs : List SLGroup) (e : SLItem)
    (h : GroupedInv gs) :
    GroupedInv (pushToGroups gs e) ∧
    ((pushToGroups gs e).map SLGroup.items).flatten.Perm
      ((gs.map SLGroup.items).flatten ++ [e]) := by
  obtain ⟨hnd, hkey⟩ := h
  unfold pushToGroups
  by_cases hfound : gs.any (fun g => g.name == groupKeyOf e) = true
  · rw [if_pos hfound]
    have hex : ∃ g ∈ gs, g.name = groupKeyOf e := by
      obtain ⟨g, hg, hgk⟩ := List.any_eq_true.mp hfound
      exact ⟨g, hg, by simpa using hgk⟩
    refine ⟨⟨?_, ?_⟩, flatten_map_update gs (groupKeyOf e) e hnd hex⟩
    · have hsame : (gs.map (fun g =>
          if g.name = groupKeyOf e then { g with items := g.items ++ [e] }
          else g)).map SLGroup.name = gs.map SLGroup.name := by
        rw [List.map_map]
        apply List.map_congr_left
        intro g _
        by_cases hg : g.name = groupKeyOf e
        · rw [Function.comp_apply, if_pos hg]
        · rw [Function.comp_apply, if_neg hg]
      rw [hsame]
      exact hnd
    · intro g' hg' x hx
      obtain ⟨g, hg, rfl⟩ := List.mem_map.mp hg'
      by_cases hgk : g.name = groupKeyOf e
      · rw [if_pos hgk] at hx ⊢
        have : x ∈ g.items ++ [e] := hx
        rcases List.mem_append.mp this with hold | hnew
        · exact hkey g hg x hold
        · rcases List.mem_singleton.mp hnew with rfl
          exact hgk.symm
      · rw [if_neg hgk] at hx ⊢
        exact hkey g hg x hx
  · rw [if_neg hfound]
    have hnone : ∀ g ∈ gs, g.name ≠ groupKeyOf e := by
      intro g hg hk
      exact hfound (List.any_eq_true.mpr ⟨g, hg, by simpa using hk⟩)
    refine ⟨⟨?_, ?_⟩, ?_⟩
    · rw [List.map_append]
      rw [List.nodup_append]
      refine ⟨hnd, by simp, ?_⟩
      intro x hx
      simp only [List.map_cons, List.map_nil, List.mem_singleton]
      intro hc
      obtain ⟨g, hg, rfl⟩ := List.mem_map.mp hx
      exact hnone g hg hc
    · intro g' hg' x hx
      rcases List.mem_append.mp hg' with hgs | hnew
      · exact hkey g' hgs x hx
      · rcases List.mem_singleton.mp hnew with rfl
        rcases List.mem_singleton.mp hx with rfl
        rfl
    · simp

lemma foldl_push_inv :
    ∀ (items : List SLItem) (gs : List SLGroup), GroupedInv gs →
      GroupedInv (items.foldl pushToGroups gs) ∧
      ((items.foldl pushToGroups gs).map SLGroup.items).flatten.Perm
        ((gs.map SLGroup.items).flatten ++ items) := by
  intro items
  induction items with
  | nil => intro gs h; exact ⟨h, by simp⟩
  | cons e rest ih =>
    intro gs h
    obtain ⟨hinv', hperm'⟩ := pushToGroups_inv gs e h
    obtain ⟨hinv'', hperm''⟩ := ih (pushToGroups gs e) hinv'
    refine ⟨hinv'', ?_⟩
    rw [List.foldl_cons]
    refine hperm''.trans ?_
    refine (hperm'.append_right rest).trans ?_
    have hassoc : ((gs.map SLGroup.items).flatten ++ [e]) ++ rest =
        (gs.map SLGroup.items).flatten ++ (e :: rest) := by
      rw [List.append_assoc]
      rfl
    rw [hassoc]

lemma flatten_map_sortItems (gs : List SLGroup) :
    ((gs.map (fun g => { g with items := sortJS itemLe g.items })).map
      SLGroup.items).flatten.Perm ((gs.map SLGroup.items).flatten) := by
  induction gs with
  | nil => rfl
  | cons g rest ih =>
    simp only [List.map_cons, List.flatten_cons]
    exact (sortJS_perm itemLe g.items).append ih

/-- C7: `groupShoppingListByCategory` partitions the entries by (defaulted)
category; within each group entries are sorted unchecked-first, then by
descending priority, then by ascending case-insensitive name; the groups
themselves are sorted by descending count of unchecked items. -/
theorem grouping_order_C7 (items : List SLItem)
    (hp : ∀ e ∈ items, e.priority.isSome) :
    ((groupShoppingListByCategory items).map SLGroup.items).flatten.Perm
      items ∧
    (∀ g ∈ groupShoppingListByCategory items, ∀ x ∈ g.items,
      groupKeyOf x = g.name) ∧
    ((groupShoppingListByCategory items).map SLGroup.name).Nodup ∧
    (∀ g ∈ groupShoppingListByCategory items, g.items.Pairwise lexLe) ∧
    (groupShoppingListByCategory items).Pairwise
      (fun g1 g2 => uncheckedCount g2 ≤ uncheckedCount g1) := by
  obtain ⟨⟨hnd0, hkey0⟩, hperm0⟩ :=
    foldl_push_inv items [] ⟨List.nodup_nil, by simp⟩
  set G0 := items.foldl pushToGroups [] with hG0def
  have hperm0' : (G0.map SLGroup.items).flatten.Perm items := by
    simpa using hperm0
  set G1 := G0.map (fun g => { g with items := sortJS itemLe g.items })
    with hG1def
  have hmain : groupShoppingListByCategory items = sortJS groupLe G1 := rfl
  have hnames1 : G1.map SLGroup.name = G0.map SLGroup.name := by
    rw [hG1def, List.map_map]
    apply List.map_congr_left
    intro g _
    rfl
  have hfl1 : (G1.map SLGroup.items).flatten.Perm items :=
    (flatten_map_sortItems G0).trans hperm0'
  have hkey1 : ∀ g ∈ G1, ∀ x ∈ g.items, groupKeyOf x = g.name := by
    intro g hg x hx
    rw [hG1def] at hg
    obtain ⟨g0, hg0, rfl⟩ := List.mem_map.mp hg
    have hx0 : x ∈ g0.items := (sortJS_perm itemLe g0.items).mem_iff.mp hx
    exact hkey0 g0 hg0 x hx0
  have hsort1 : ∀ g ∈ G1, g.items.Pairwise lexLe := by
    intro g hg
    rw [hG1def] at hg
    obtain ⟨g0, hg0, rfl⟩ := List.mem_map.mp hg
    have hsome : ∀ x ∈ g0.items, x.priority.isSome := by
      intro x hx
      refine hp x (hperm0'.mem_iff.mp ?_)
      exact List.mem_flatten.mpr
        ⟨g0.items, List.mem_map_of_mem SLGroup.items hg0, hx⟩
    have hpw : (sortJS itemLe g0.items).Pairwise (itemLe · ·) := by
      apply sortJS_pairwise
      · intro x hx y hy
        obtain ⟨px, hpx⟩ := Option.isSome_iff_exists.mp (hsome x hx)
        obtain ⟨py, hpy⟩ := Option.isSome_iff_exists.mp (hsome y hy)
        rcases (lexLe_total (a := x) (b := y)) with hxy | hyx
        · exact Or.inl (decide_eq_true ((cmpItems_le_iff hpx hpy).mpr hxy))
        · exact Or.inr (decide_eq_true ((cmpItems_le_iff hpy hpx).mpr hyx))
      · intro x hx y hy z hz hxy hyz
        obtain ⟨px, hpx⟩ := Option.isSome_iff_exists.mp (hsome x hx)
        obtain ⟨py, hpy⟩ := Option.isSome_iff_exists.mp (hsome y hy)
        obtain ⟨pz, hpz⟩ := Option.isSome_iff_exists.mp (hsome z hz)
        have h1 := (cmpItems_le_iff hpx hpy).mp (of_decide_eq_true hxy)
        have h2 := (cmpItems_le_iff hpy hpz).mp (of_decide_eq_true hyz)
        exact decide_eq_true ((cmpItems_le_iff hpx hpz).mpr
          (lexLe_trans h1 h2))
    refine List.Pairwise.imp_of_mem ?_ hpw
    intro a b ha hb hab
    have ha' : a ∈ g0.items := (sortJS_perm itemLe g0.items).mem_iff.mp ha
    have hb' : b ∈ g0.items := (sortJS_perm itemLe g0.items).mem_iff.mp hb
    obtain ⟨pa, hpa⟩ := Option.isSome_iff_exists.mp (hsome a ha')
    obtain ⟨pb, hpb⟩ := Option.isSome_iff_exists.mp (hsome b hb')
    exact (cmpItems_le_iff hpa hpb).mp (of_decide_eq_true hab)
  have hmemG2 : ∀ g, g ∈ sortJS groupLe G1 ↔ g ∈ G1 :=
    fun g => (sortJS_perm groupLe G1).mem_iff
  refine ⟨?_, ?_, ?_, ?_, ?_⟩
  · rw [hmain]
    exact (((sortJS_perm groupLe G1).map SLGroup.items).flatten).trans hfl1
  · rw [hmain]
    intro g hg x hx
    exact hkey1 g ((hmemG2 g).mp hg) x hx
  · rw [hmain]
    refine (((sortJS_perm groupLe G1).map SLGroup.name).nodup_iff).mpr ?_
    rw [hnames1]
    exact hnd0
  · rw [hmain]
    intro g hg
    exact hsort1 g ((hmemG2 g).mp hg)
  · rw [hmain]
    have hpw : (sortJS groupLe G1).Pairwise (groupLe · ·) := by
      apply sortJS_pairwise
      · intro x _ y _
        simp only [groupLe, cmpGroups, decide_eq_true_eq]
        omega
      · intro x _ y _ z _ hxy hyz
        simp only [groupLe, cmpGroups, decide_eq_true_eq] at hxy hyz ⊢
        omega
    refine hpw.imp ?_
    intro g1 g2 h
    simp only [groupLe, cmpGroups, decide_eq_true_eq] at h
    omega

/-- A small concrete collection exercising the grouping order. -/
def c7items : List SLItem :=
  [⟨"s1".data, "agurk".data, some "1".data, "Grøntsager".data, "🥕".data,
    false, some .low, 0, "manual".data, none, none, false⟩,
   ⟨"s2".data, "Tomat".data, some "2".data, "Grøntsager".data, "🥕".data,
    false, some .high, 0, "manual".data, none, none, true⟩,
   ⟨"s3".data, "mælk".data, some "1L".data, "Mejeriprodukter".data,
    "🥛".data, true, some .medium, 0, "manual".data, none, none, false⟩]

theorem grouping_order_C7_witness :
    ((groupShoppingListByCategory c7items).map SLGroup.items).flatten.Perm
      c7items ∧
    (∀ g ∈ groupShoppingListByCategory c7items, ∀ x ∈ g.items,
      groupKeyOf x = g.name) ∧
    ((groupShoppingListByCategory c7items).map SLGroup.name).Nodup ∧
    (∀ g ∈ groupShoppingListByCategory c7items, g.items.Pairwise lexLe) ∧
    (groupShoppingListByCategory c7items).Pairwise
      (fun g1 g2 => uncheckedCount g2 ≤ uncheckedCount g1) :=
  grouping_order_C7 c7items (by decide)
